import Mathlib

set_option maxRecDepth 4000

/-!
Shallow embedding of the redlox bytecode interpreter (scanner, Pratt
compiler, chunk encoding, virtual machine) translated from the Rust
sources in `src/`, together with theorems settling the frozen claims.

Modelling conventions:
* Rust `u8`/`u16`/`u32`/`usize` become `Nat`; wrapping casts are written
  with explicit `% 256` / `% 65536` at the places the source casts.
* A 16-bit code unit `u16::from_be_bytes [op, arg]` is modelled as the
  number `op * 256 + arg`; `to_be_bytes` is division/remainder by 256.
* Rust `f64` is modelled by `F64`: a rational together with a distinct
  `nan` element.  The operations mirror the IEEE behaviour the program
  relies on: every comparison (`<`, `>`, `==`) involving `nan` is
  `false`, arithmetic involving `nan` yields `nan`.
* `HashMap` is modelled as an association list (newest binding first);
  lookup compares keys with decidable equality, as the map does.
* `Rc<RefCell<...>>` handles are modelled by values; the pointer
  identity used by `PartialEq for Obj<LoxFunction>` is modelled by a
  numeric tag carried by function values.
* Partial Rust operations (indexing, `unwrap`) are modelled with
  default values (`getD`, `getLastD`); each such place is noted.  The
  claims only exercise them inside their defined domain.
* The VM dispatch loops and the parser loops may diverge on malformed
  input, so they take a fuel argument; exhausted fuel returns the
  in-progress state with an `ok` result, never an error, so
  error-path theorems are unaffected.
-/

namespace Redlox

/-- Model of IEEE-754 `f64` as used by the interpreter: a rational
number or `nan`.  See the module docstring. -/
inductive F64 where
  | num (q : ℚ)
  | nan
deriving DecidableEq

namespace F64

/-- True exactly on the `nan` element. -/
def isNan : F64 → Bool
  | .nan => true
  | .num _ => false

/-- IEEE `<`: false whenever an operand is `nan`. -/
def flt : F64 → F64 → Bool
  | .num a, .num b => a < b
  | _, _ => false

/-- IEEE `>`: false whenever an operand is `nan`. -/
def fgt : F64 → F64 → Bool
  | .num a, .num b => a > b
  | _, _ => false

/-- IEEE `==`: false whenever an operand is `nan` (NaN is unequal to
itself). -/
def feq : F64 → F64 → Bool
  | .num a, .num b => a == b
  | _, _ => false

/-- IEEE `+` restricted to the modelled values; `nan` absorbs. -/
def fadd : F64 → F64 → F64
  | .num a, .num b => .num (a + b)
  | _, _ => .nan

/-- IEEE `-` restricted to the modelled values; `nan` absorbs. -/
def fsub : F64 → F64 → F64
  | .num a, .num b => .num (a - b)
  | _, _ => .nan

/-- IEEE `*` restricted to the modelled values; `nan` absorbs. -/
def fmul : F64 → F64 → F64
  | .num a, .num b => .num (a * b)
  | _, _ => .nan

/-- IEEE `/` restricted to the modelled values; `nan` absorbs, and a
zero divisor is mapped to `nan` (the claims never divide by zero). -/
def fdiv : F64 → F64 → F64
  | .num a, .num b => if b = 0 then .nan else .num (a / b)
  | _, _ => .nan

/-- IEEE negation; `nan` stays `nan`. -/
def fneg : F64 → F64
  | .num a => .num (-a)
  | .nan => .nan

end F64

/-- Tags naming the host (native) functions; the program registers
exactly one, `clock`.  `RustFunction::eq` compares function pointers,
modelled as equality of tags. -/
inductive NativeTag where
  | clock
deriving DecidableEq

/-- The data of `code::Chunk`, parameterised by the value type so that
`Value` and `Chunk` can refer to each other (`Chunk.constants` stores
values; function values carry chunks).  The `LineMap` struct is
inlined as the two fields `lines` and `lineCurrent`. -/
structure ChunkG (V : Type) where
  code : List Nat
  constants : List V
  lines : List Nat
  lineCurrent : Nat
deriving DecidableEq

/-- `Value` from `lib.rs` (with the `Builtin` variant used by
`vm.rs`).  Strings are stored by contents (`LoxString` is an immutable
boxed str compared by contents); functions carry a tag modelling
`Rc` pointer identity plus the `LoxFunction` fields; builtins carry
the `RustFunction` fields with the host callable as a `NativeTag`. -/
inductive Value where
  | nil
  | boolean (b : Bool)
  | number (x : F64)
  | str (s : String)
  | function (tag : Nat) (name : String) (arity : Nat) (chunk : ChunkG Value)
  | builtin (name : String) (arity : Nat) (fn : NativeTag)

/-- The chunk type used everywhere below. -/
abbrev Chunk := ChunkG Value

instance : Inhabited Chunk :=
  ⟨{ code := [], constants := [], lines := [], lineCurrent := 1 }⟩

/-- `Value` equality as derived in Rust: same variant and
variant-specific equality; numbers use IEEE equality (NaN unequal to
itself), strings compare by contents, functions by pointer identity
(tag), builtins by function pointer (tag). -/
def valueEq : Value → Value → Bool
  | .nil, .nil => true
  | .boolean a, .boolean b => a == b
  | .number a, .number b => a.feq b
  | .str a, .str b => a == b
  | .function ta _ _ _, .function tb _ _ _ => ta == tb
  | .builtin _ _ fa, .builtin _ _ fb => fa == fb
  | _, _ => false

/-- Truthiness (`impl From<Value> for bool`): `Nil` and `false` are
falsy, everything else truthy. -/
def truthy : Value → Bool
  | .nil => false
  | .boolean false => false
  | _ => true

/-- `Display for Value` (used by `Op::Print`).  Number formatting in
Rust uses shortest round-tripping decimal for `f64`; the model prints
the rational via `toString`, which agrees on the values the claims
exercise and is otherwise unexercised. -/
def displayValue : Value → String
  | .nil => "nil"
  | .boolean b => toString b
  | .number (.num q) => toString q
  | .number .nan => "NaN"
  | .str s => s
  | .function _ name _ _ => name
  | .builtin name _ _ => name

/-! The opcode constants of `code::Op`. -/
namespace Op

def Nil : Nat := 0
def True : Nat := 1
def False : Nat := 2
def Pop : Nat := 3
def Print : Nat := 4
def Return : Nat := 5
def Not : Nat := 6
def Negate : Nat := 7
def Equal : Nat := 8
def Greater : Nat := 9
def Less : Nat := 10
def Add : Nat := 11
def Subtract : Nat := 12
def Multiply : Nat := 13
def Divide : Nat := 14
def Nop : Nat := 127
def Constant : Nat := 128
def PopN : Nat := 129
def DefineGlobal : Nat := 130
def GetGlobal : Nat := 131
def SetGlobal : Nat := 132
def GetLocal : Nat := 133
def SetLocal : Nat := 134
def JumpIfFalse : Nat := 135
def Jump : Nat := 136
def Loop : Nat := 137
def Extend : Nat := 138
def Call : Nat := 139

end Op

/-- `code::Instruction`: decoded opcode, operand and unit count. -/
structure Instruction where
  opcode : Nat
  operand : Nat
  len : Nat
deriving DecidableEq

/-- `Instruction::new`: opcode `Nop`, operand 0, length 1. -/
instance : Inhabited Instruction := ⟨⟨Op.Nop, 0, 1⟩⟩

/-- `u16::from_be_bytes([op, arg])`: one 16-bit code unit with the
opcode in the high byte and `arg` in the low byte. -/
def mkBytecode (op arg : Nat) : Nat := op * 256 + arg

/-- Fueled bit-length recursion (`bitLen` below supplies the fuel);
structurally recursive so the kernel can evaluate it on literals. -/
def bitLenAux : Nat → Nat → Nat
  | 0, _ => 0
  | fuel + 1, n => if n = 0 then 0 else bitLenAux fuel (n / 2) + 1

/-- The bit length of a natural number: `u32::leading_zeros` in the
source is `32 - bitLen` for values below `2^32`. -/
def bitLen (n : Nat) : Nat := bitLenAux n n

/-- The `Extend` payload bytes of `Chunk::write_op_arg`: for
`arg > 0xff` the big-endian bytes of `ext_arg = arg >> 8` (a `u32`)
from index `start = 3 - (32 - ext_arg.leading_zeros) / 8` on, where
`32 - leading_zeros` is the bit length `bitLen`; for `arg ≤ 0xff`
none. -/
def extendBytes (arg : Nat) : List Nat :=
  if arg > 0xff then
    let extArg := arg >>> 8
    let start := 3 - bitLen extArg / 8
    ([(extArg >>> 24) % 256, (extArg >>> 16) % 256,
      (extArg >>> 8) % 256, extArg % 256]).drop start
  else []

namespace ChunkG

/-- `Chunk::MAX_CONSTS`. -/
def MAX_CONSTS : Nat := 0xffffff

/-- `LineMap::add_op`: record the current line for a new code unit. -/
def add_op_line (c : Chunk) : Chunk :=
  { c with lines := c.lines ++ [c.lineCurrent] }

/-- `Chunk::new_line` / `LineMap::new_line`. -/
def new_line (c : Chunk) (line : Nat) : Chunk :=
  { c with lineCurrent := line }

/-- `Chunk::get_line` / `LineMap::get_line` (`lines[offset]`; indexing
out of range panics in Rust, modelled by a default of 0). -/
def get_line (c : Chunk) (offset : Nat) : Nat :=
  c.lines.getD offset 0

/-- `Chunk::push_op`: append one code unit and record its line. -/
def push_op (c : Chunk) (op arg : Nat) : Chunk :=
  let c := { c with code := c.code ++ [mkBytecode op arg] }
  c.add_op_line

/-- `Chunk::write_op` (asserts `op < Op::Constant` in the source;
callers respect it). -/
def write_op (c : Chunk) (op : Nat) : Chunk :=
  c.push_op op 0

/-- `Chunk::write_op_arg` (asserts `op ≥ Op::Constant` in the source):
push one `Extend` unit per payload byte (none when `arg ≤ 0xff`), in
order, then the opcode unit with the low byte (`arg as u8` is
`arg % 256`). -/
def write_op_arg (c : Chunk) (op arg : Nat) : Chunk :=
  let c := (extendBytes arg).foldl (fun c b => c.push_op Op.Extend b) c
  c.push_op op (arg % 256)

/-- `Chunk::write_jump`: remember the offset, emit the op with the
0xfff placeholder (always exactly two code units). -/
def write_jump (c : Chunk) (op : Nat) : Nat × Chunk :=
  (c.code.length, c.write_op_arg op 0xfff)

/-- `Chunk::patch_jump`: overwrite the low bytes of the two units at
`offset` and `offset+1` with the big-endian bytes of `delta : u16`. -/
def patch_jump (c : Chunk) (offset : Nat) (delta : Nat) : Chunk :=
  let u0 := c.code.getD offset 0
  let code1 := c.code.set offset (mkBytecode (u0 / 256) ((delta >>> 8) % 256))
  let u1 := code1.getD (offset + 1) 0
  { c with code := code1.set (offset + 1) (mkBytecode (u1 / 256) (delta % 256)) }

/-- `Chunk::add_constant`: fail once the pool holds `MAX_CONSTS`
values, otherwise append and return the index. -/
def add_constant (c : Chunk) (value : Value) : Except String Nat × Chunk :=
  let idx := c.constants.length
  if idx ≥ MAX_CONSTS then (.error "too many constants in one chunk", c)
  else (.ok idx, { c with constants := c.constants ++ [value] })

/-- `Chunk::get_constant` (indexing panics when out of range in Rust,
modelled by `Value.nil`). -/
def get_constant (c : Chunk) (idx : Nat) : Value :=
  c.constants.getD idx Value.nil

end ChunkG

/-- The loop of `Chunk::get_instruction`, recursing over the code
units from the decoding offset.  `operand` and `len` are the running
accumulators; the head unit is split into its big-endian bytes.  The
empty-list case covers both the asserted-unreachable initial case and
the mid-stream break when an `Extend` unit ends the chunk. -/
def getInstCore : List Nat → Nat → Nat → Instruction
  | [], operand, len => ⟨Op.Nop, operand, len⟩
  | u :: rest, operand, len =>
    let opcode := u / 256
    let operand := operand ||| (u % 256)
    if opcode ≠ Op.Extend then ⟨opcode, operand, len⟩
    else
      match rest with
      | [] => ⟨opcode, operand, len⟩
      | _ :: _ => getInstCore rest (operand <<< 8) (len + 1)

/-- `Chunk::get_instruction`. -/
def ChunkG.get_instruction (c : Chunk) (offset : Nat) : Instruction :=
  getInstCore (c.code.drop offset) 0 1

/-! ## Symbol table (`vm::SymTable`) -/

/-- `vm::SymTable`: identifier text to symbol id (`symbols`, a hash
map modelled as an association list with the newest binding first) and
symbol id to text (`names`). -/
structure SymTable where
  symbols : List (String × Nat)
  names : List String
deriving DecidableEq

namespace SymTable

/-- `SymTable::new`. -/
def new : SymTable := { symbols := [], names := [] }

/-- `SymTable::intern`: return the existing id when present, otherwise
allocate the next dense id, record the mapping and append the name. -/
def intern (t : SymTable) (ident : String) : Nat × SymTable :=
  match t.symbols.lookup ident with
  | some sym => (sym, t)
  | none =>
    let idx := t.names.length
    (idx, { symbols := (ident, idx) :: t.symbols, names := t.names ++ [ident] })

/-- `SymTable::lookup` (`names[sym]`; out of range panics in Rust,
modelled by the empty string). -/
def lookup (t : SymTable) (sym : Nat) : String :=
  t.names.getD sym ""

/-- Well-formedness of a symbol table: every recorded mapping points
at the matching entry of the names list.  `SymTable::new` satisfies it
and `intern` preserves it. -/
def Wf (t : SymTable) : Prop :=
  ∀ p ∈ t.symbols, t.names[p.2]? = some p.1

end SymTable

/-! ## VM state (`vm.rs`) -/

/-- `vm::LoxFunction`. -/
structure LoxFunction where
  name : String
  arity : Nat
  chunk : Chunk

/-- `LoxFunction` via `#[derive(Default)]`. -/
instance : Inhabited LoxFunction := ⟨{ name := "", arity := 0, chunk := default }⟩

/-- `vm::Frame`: the function under execution, its resume offset and
its stack base. -/
structure Frame where
  func : LoxFunction
  offset : Nat
  base : Nat

instance : Inhabited Frame := ⟨{ func := default, offset := 0, base := 0 }⟩

/-- `vm::RuntimeError`. -/
structure RuntimeError where
  msg : String
deriving DecidableEq

/-- `RuntimeError::with_line`: prefix the message with `[line N] `. -/
def RuntimeError.with_line (e : RuntimeError) (line : Nat) : RuntimeError :=
  { msg := "[line " ++ toString line ++ "] " ++ e.msg }

/-- `vm::Vm`: the mutable interpreter state.  `stdout` collects the
lines written by `Print`; the error sink is unused by the VM itself. -/
structure Vm where
  stdout : List String
  frames : List Frame
  stack : List Value
  globals : List (Nat × Value)
  symbols : SymTable

namespace Vm

/-- `Vm::MAX_STACK`. -/
def MAX_STACK : Nat := 65536

/-- `Vm::peek`: read `stack[len - (count+1)]` without popping (index
underflow panics in Rust; modelled by `Value.nil`). -/
def peek (s : Vm) (count : Nat) : Value :=
  s.stack.getD (s.stack.length - (count + 1)) Value.nil

/-- `Vm::poke`: overwrite `stack[len - (count+1)]`. -/
def poke (s : Vm) (count : Nat) (val : Value) : Vm :=
  { s with stack := s.stack.set (s.stack.length - (count + 1)) val }

/-- `Vm::pop` (`unwrap` on an empty stack panics in Rust; modelled by
`Value.nil`). -/
def pop (s : Vm) : Value × Vm :=
  (s.stack.getLastD Value.nil, { s with stack := s.stack.dropLast })

/-- `Vm::push`: fails with "stack overflow" when the stack already
holds `MAX_STACK` values, leaving the state unchanged. -/
def push (s : Vm) (val : Value) : Except RuntimeError Vm :=
  if s.stack.length < MAX_STACK then .ok { s with stack := s.stack ++ [val] }
  else .error ⟨"stack overflow"⟩

/-- `Vm::arithmetic_args`: pop `b`, peek `a`; if both are numbers
return them, otherwise pop the second operand too and fail. -/
def arithmetic_args (s : Vm) : Except RuntimeError (F64 × F64) × Vm :=
  let (b, s) := s.pop
  let a := s.peek 0
  match a, b with
  | .number a, .number b => (.ok (a, b), s)
  | _, _ =>
    let (_, s) := s.pop
    (.error ⟨"operands must be numbers"⟩, s)

end Vm

/-- The type of the host-function oracle: `vm::NativeFn` is a Rust
function pointer receiving the argument count and the VM; it is kept
abstract as a parameter of the dispatch loop, dispatched on the
`NativeTag` stored in the builtin value.  It returns the result (or a
runtime error) together with the possibly mutated VM. -/
def NativeImpl : Type :=
  NativeTag → Nat → Vm → Except RuntimeError Value × Vm

/-- The `clock` native of `vm/native.rs`, parameterised by the reading
of the external monotonic clock: it ignores its arguments and the VM
and returns the reading as a number. -/
def clockNative (t : F64) : NativeImpl :=
  fun _ _ s => (.ok (.number t), s)

/-- Outcome of dispatching a single instruction inside
`Vm::run_frame`: continue at an instruction-pointer offset, break out
of the loop (`Op::Return`), return a new frame (`Op::Call` on a user
function), or fail (before the `map_err` that adds the line and
clears the stack). -/
inductive StepRes where
  | next (ip : Nat) (s : Vm)
  | ret (s : Vm)
  | call (fr : Frame) (s : Vm)
  | err (e : RuntimeError) (s : Vm)

/-- Lift the result of `Vm::push` into a `StepRes` continuation, as
the dispatch arms that end in `self.push(...)` do. -/
def StepRes.ofPush (ip : Nat) (s : Vm) (r : Except RuntimeError Vm) : StepRes :=
  match r with
  | .ok s₂ => .next ip s₂
  | .error e => .err e s

/-- The VM state carried by a dispatch outcome. -/
def StepRes.state : StepRes → Vm
  | .next _ s => s
  | .ret s => s
  | .call _ s => s
  | .err _ s => s

/-- A host-function oracle that never touches the frame stack (every
native of the program — `clock` — satisfies this). -/
def framesPreserving (native : NativeImpl) : Prop :=
  ∀ f n s, ((native f n s).2).frames = s.frames

/-- The body of the dispatch `match` in `Vm::run_frame`, one arm per
opcode, translated clause for clause.  `chunk` is the running frame
function chunk, `base` its stack base, `ip` the offset of the next
instruction (already advanced past `inst`). -/
def execInst (native : NativeImpl) (chunk : Chunk) (base : Nat)
    (inst : Instruction) (ip : Nat) (s : Vm) : StepRes :=
  if inst.opcode = Op.Nil then .ofPush ip s (s.push .nil)
  else if inst.opcode = Op.True then .ofPush ip s (s.push (.boolean true))
  else if inst.opcode = Op.False then .ofPush ip s (s.push (.boolean false))
  else if inst.opcode = Op.Pop then
    let (_, s) := s.pop
    .next ip s
  else if inst.opcode = Op.Print then
    let (val, s) := s.pop
    .next ip { s with stdout := s.stdout ++ [displayValue val] }
  else if inst.opcode = Op.Return then .ret s
  else if inst.opcode = Op.Not then
    let arg := truthy (s.peek 0)
    .next ip (s.poke 0 (.boolean (!arg)))
  else if inst.opcode = Op.Negate then
    match s.peek 0 with
    | .number v => .next ip (s.poke 0 (.number v.fneg))
    | _ =>
      let (_, s) := s.pop
      .err ⟨"operand must be a number"⟩ s
  else if inst.opcode = Op.Equal then
    let (b, s) := s.pop
    let a := s.peek 0
    .next ip (s.poke 0 (.boolean (valueEq a b)))
  else if inst.opcode = Op.Greater then
    match s.arithmetic_args with
    | (.ok (a, b), s) => .next ip (s.poke 0 (.boolean (a.fgt b)))
    | (.error e, s) => .err e s
  else if inst.opcode = Op.Less then
    match s.arithmetic_args with
    | (.ok (a, b), s) => .next ip (s.poke 0 (.boolean (a.flt b)))
    | (.error e, s) => .err e s
  else if inst.opcode = Op.Add then
    let (b, s) := s.pop
    let a := s.peek 0
    match a, b with
    | .number a, .number b => .next ip (s.poke 0 (.number (a.fadd b)))
    | .str a, .str b => .next ip (s.poke 0 (.str (a ++ b)))
    | _, _ =>
      let (_, s) := s.pop
      .err ⟨"operands must be numbers or strings"⟩ s
  else if inst.opcode = Op.Subtract then
    match s.arithmetic_args with
    | (.ok (a, b), s) => .next ip (s.poke 0 (.number (a.fsub b)))
    | (.error e, s) => .err e s
  else if inst.opcode = Op.Multiply then
    match s.arithmetic_args with
    | (.ok (a, b), s) => .next ip (s.poke 0 (.number (a.fmul b)))
    | (.error e, s) => .err e s
  else if inst.opcode = Op.Divide then
    match s.arithmetic_args with
    | (.ok (a, b), s) => .next ip (s.poke 0 (.number (a.fdiv b)))
    | (.error e, s) => .err e s
  else if inst.opcode = Op.Constant then
    .ofPush ip s (s.push (chunk.get_constant inst.operand))
  else if inst.opcode = Op.Call then
    let argCount := inst.operand
    match s.peek argCount with
    | .function _ fname farity fchunk =>
      if farity ≠ argCount then
        .err ⟨"expected " ++ toString farity ++ " arguments but got "
              ++ toString argCount⟩ s
      else
        .call { func := ⟨fname, farity, fchunk⟩,
                base := s.stack.length - argCount - 1, offset := 0 } s
    | .builtin _ farity f =>
      if farity ≠ argCount then
        .err ⟨"expected " ++ toString farity ++ " arguments but got "
              ++ toString argCount⟩ s
      else
        match native f argCount s with
        | (.ok v, s) =>
          let s := { s with stack := s.stack.take (s.stack.length - argCount + 1) }
          .ofPush ip s (s.push v)
        | (.error e, s) => .err e s
    | _ => .err ⟨"can only call functions or classes"⟩ s
  else if inst.opcode = Op.PopN then
    .next ip { s with stack := s.stack.take (s.stack.length - inst.operand) }
  else if inst.opcode = Op.DefineGlobal then
    let (global, s) := s.pop
    .next ip { s with globals := (inst.operand, global) :: s.globals }
  else if inst.opcode = Op.GetGlobal then
    match s.globals.lookup inst.operand with
    | none =>
      .err ⟨"undefined variable \x27" ++ s.symbols.names.getD inst.operand "" ++ "\x27"⟩ s
    | some val => .ofPush ip s (s.push val)
  else if inst.opcode = Op.SetGlobal then
    let val := s.peek 0
    match s.globals.lookup inst.operand with
    | some _ => .next ip { s with globals := (inst.operand, val) :: s.globals }
    | none =>
      .err ⟨"undefined variable \x27" ++ s.symbols.names.getD inst.operand "" ++ "\x27"⟩ s
  else if inst.opcode = Op.GetLocal then
    let slot := inst.operand + base
    let lcl := s.stack.getD slot Value.nil
    .ofPush ip s (s.push lcl)
  else if inst.opcode = Op.SetLocal then
    let val := s.peek 0
    let slot := inst.operand + base
    .next ip { s with stack := s.stack.set slot val }
  else if inst.opcode = Op.JumpIfFalse then
    if !truthy (s.peek 0) then .next (ip + inst.operand) s else .next ip s
  else if inst.opcode = Op.Jump then .next (ip + inst.operand) s
  else if inst.opcode = Op.Loop then .next (ip - inst.operand) s
  else if inst.opcode = Op.Nop then .next ip s
  else .err ⟨"unknown opcode " ++ toString inst.opcode⟩ s

/-- The `while let Some(inst) = ip.next()` loop of `Vm::run_frame`.
`off` is the current instruction offset; on an error the raising
instruction line is attached and the value stack cleared
(`result.map_err` in the source); on `Op::Call` of a user function
the current frame resume offset is saved before returning. -/
def run_frame_loop (native : NativeImpl) (func : LoxFunction) (base current : Nat) :
    Nat → Nat → Vm → Except RuntimeError (Option Frame) × Vm
  | 0, _, s => (.ok none, s)
  | fuel + 1, off, s =>
    if off < func.chunk.code.length then
      let inst := func.chunk.get_instruction off
      let ip := off + inst.len
      match execInst native func.chunk base inst ip s with
      | .next ip₂ s₂ => run_frame_loop native func base current fuel ip₂ s₂
      | .ret s₂ => (.ok none, s₂)
      | .call fr s₂ =>
        let frames₂ :=
          match s₂.frames.get? current with
          | some fr₀ => s₂.frames.set current { fr₀ with offset := ip }
          | none => s₂.frames
        (.ok (some fr), { s₂ with frames := frames₂ })
      | .err e s₂ =>
        (.error (e.with_line (func.chunk.get_line (ip - inst.len))),
         { s₂ with stack := [] })
    else (.ok none, s)

/-- `Vm::run_frame`: read the running frame data and execute its
instructions from the saved offset. -/
def run_frame (native : NativeImpl) (fuel current : Nat) (s : Vm) :
    Except RuntimeError (Option Frame) × Vm :=
  let fr := s.frames.getD current default
  run_frame_loop native fr.func fr.base current fuel fr.offset s

/-- The frame-scheduling loop of `Vm::run`.  On a normal frame exit
pop the frame, pop the result, truncate to the frame base and (unless
the script frame finished) push the result for the caller; on a call
push the new frame; on an error return it unchanged (the source
`Err(e) => return Err(e)` arm: the frames are NOT popped). -/
def runLoop (native : NativeImpl) (ifuel : Nat) :
    Nat → Nat → Vm → Except RuntimeError Unit × Vm
  | 0, _, s => (.ok (), s)
  | ofuel + 1, current, s =>
    match run_frame native ifuel current s with
    | (.ok none, s₂) =>
      let frame := s₂.frames.getLastD default
      let s₃ := { s₂ with frames := s₂.frames.dropLast }
      let (result, s₄) := s₃.pop
      let s₅ := { s₄ with stack := s₄.stack.take frame.base }
      if current = 0 then (.ok (), s₅)
      else
        let s₆ := match s₅.push result with
          | .ok s₇ => s₇
          | .error _ => s₅
        runLoop native ifuel ofuel (current - 1) s₆
    | (.ok (some fr), s₂) =>
      runLoop native ifuel ofuel (current + 1) { s₂ with frames := s₂.frames ++ [fr] }
    | (.error e, s₂) => (.error e, s₂)

/-- `Vm::run`: push the script frame and the reserved `Nil` slot, then
run frames starting at index 0.  The `push(...).unwrap()` panics on
overflow in Rust; the model keeps the state unchanged there. -/
def Vm.run (native : NativeImpl) (ofuel ifuel : Nat) (script : LoxFunction) (s : Vm) :
    Except RuntimeError Unit × Vm :=
  let s := { s with frames := s.frames ++ [({ func := script, base := 0, offset := 0 } : Frame)] }
  let s := match s.push .nil with
    | .ok s₂ => s₂
    | .error _ => s
  runLoop native ifuel ofuel 0 s

/-! ## Token kinds (`parser/scanner.rs`) -/

/-- `scanner::TokenType` (closed set, `Eof` is the `#[default]`). -/
inductive TokenType where
  | Eof
  | Colon
  | Comma
  | LeftBrace
  | LeftParen
  | RightBrace
  | RightParen
  | Semicolon
  | Bang
  | BangEqual
  | Dot
  | Equal
  | EqualEqual
  | Greater
  | GreaterEqual
  | Less
  | LessEqual
  | Minus
  | Plus
  | Slash
  | Star
  | Identifier
  | Number
  | String
  | And
  | Break
  | Case
  | Class
  | Continue
  | Default
  | Else
  | False
  | For
  | Fun
  | If
  | Nil
  | Or
  | Print
  | Return
  | Super
  | Switch
  | This
  | True
  | Var
  | While
deriving DecidableEq, Fintype

/-! ## Scanner, the part the claims exercise (`Scanner::string`) -/

/-- The scanner state needed by `Scanner::string`: the unconsumed
suffix of the source byte buffer (standing for `Source.text` from
`Source.current` on) and the current line.  The token start/end
positions play no role in the modelled claims. -/
structure Scanner where
  rest : List Nat
  line : Nat
deriving DecidableEq

/-- The `skip_while` call inside `Scanner::string` with its stateful
closure `(c == b'\n') && { self.line += 1; true } || c != b'"'`:
consume newlines (counting them) and every other byte distinct from
the double quote; stop at the first `"` (byte 34) or at the end of
input. -/
def scanStringLoop : List Nat → Nat → List Nat × Nat
  | [], line => ([], line)
  | c :: rest, line =>
    if c = 10 then scanStringLoop rest (line + 1)
    else if c ≠ 34 then scanStringLoop rest line
    else (c :: rest, line)

/-- `Scanner::string` (called after the opening quote was consumed):
skip to the closing quote; at end of input restore the line of the
opening quote and fail with "unterminated string"; otherwise consume
the closing quote and produce a `String` token. -/
def Scanner.string (sc : Scanner) : Except String TokenType × Scanner :=
  let line := sc.line
  let (rest, line₂) := scanStringLoop sc.rest sc.line
  let sc := { sc with rest := rest, line := line₂ }
  match sc.rest.head? with
  | none => (.error "unterminated string", { sc with line := line })
  | some _ => (.ok TokenType.String, { sc with rest := sc.rest.tail })

/-! ## Compiler (`parser.rs`) -/

/-- A scanned token as the parser sees it: kind, lexeme text and
source line.  `scanner::Token` stores a byte range into the source;
the parser only ever reads it through `Scanner::token_text`, so the
model stores the text directly. -/
structure Tok where
  ty : TokenType
  text : String
  line : Nat
deriving DecidableEq

/-- `Token::default`: kind `Eof`, line 1. -/
instance : Inhabited Tok := ⟨⟨.Eof, "", 1⟩⟩

/-! The precedence constants of `parser::Prec`. -/
namespace Prec

def None : Nat := 0
def Assignment : Nat := 1
def Or : Nat := 2
def And : Nat := 3
def Equality : Nat := 4
def Comparison : Nat := 5
def Term : Nat := 6
def Factor : Nat := 7
def Unary : Nat := 8
def Call : Nat := 9
def Primary : Nat := 10

/-- `Prec::for_op_type`: the infix precedence of a token kind; every
kind without an infix rule (including `LeftParen`) maps to `None`. -/
def for_op_type : TokenType → Nat
  | .Minus | .Plus => Term
  | .Slash | .Star => Factor
  | .BangEqual | .EqualEqual => Equality
  | .Greater | .GreaterEqual | .Less | .LessEqual => Comparison
  | .And => And
  | .Or => Or
  | _ => None

end Prec

/-- `parser::Local`: symbol and scope depth (`-1` marks a declared but
uninitialized local, hence `Int`). -/
structure Local where
  sym : Nat
  depth : Int
deriving DecidableEq

instance : Inhabited Local := ⟨⟨0, 0⟩⟩

/-- `parser::Locals`: current scope depth and the flat stack of local
descriptors. -/
structure Locals where
  depth : Int
  locals : List Local
deriving DecidableEq

namespace Locals

/-- The reverse iteration of `Locals::add`, here over the reversed
list: stop (allowing the add) at the first initialized local of an
enclosing scope, refuse on a same-symbol local before that. -/
def addCheck (depth : Int) (sym : Nat) : List Local → Bool
  | [] => true
  | l :: rest =>
    if l.depth ≠ -1 ∧ l.depth < depth then true
    else if l.sym = sym then false
    else addCheck depth sym rest

/-- `Locals::add`: check for a duplicate in the current scope; on
success push the new local marked uninitialized (depth `-1`). -/
def add (ls : Locals) (sym : Nat) : Bool × Locals :=
  if addCheck ls.depth sym ls.locals.reverse then
    (true, { ls with locals := ls.locals ++ [⟨sym, -1⟩] })
  else (false, ls)

/-- `Locals::begin_scope`. -/
def begin_scope (ls : Locals) : Locals :=
  { ls with depth := ls.depth + 1 }

/-- The counting loop shared by `Locals::count_to_depth` and
`Locals::end_scope`, over the reversed list: the length of the suffix
of locals whose depth exceeds `depth`. -/
def countLoop (depth : Int) : List Local → Nat
  | [] => 0
  | l :: rest => if l.depth > depth then countLoop depth rest + 1 else 0

/-- `Locals::count_to_depth`. -/
def count_to_depth (ls : Locals) (depth : Int) : Nat :=
  countLoop depth ls.locals.reverse

/-- `Locals::end_scope`: decrement the depth and pop (returning the
count) every local declared deeper than the new depth. -/
def end_scope (ls : Locals) : Nat × Locals :=
  let d := ls.depth - 1
  let n := countLoop d ls.locals.reverse
  (n, { depth := d, locals := ls.locals.take (ls.locals.length - n) })

/-- `Locals::inject`: push a synthetic local (symbol `u32::MAX`) at
the current depth and return its slot index. -/
def inject (ls : Locals) : Nat × Locals :=
  (ls.locals.length, { ls with locals := ls.locals ++ [⟨4294967295, ls.depth⟩] })

/-- `Locals::mark_initialized`: set the depth of the newest local to
the current depth (panics on an empty list in Rust; modelled as a
no-op there). -/
def mark_initialized (ls : Locals) : Locals :=
  { ls with
    locals := ls.locals.dropLast ++
      (match ls.locals.getLast? with
       | some l => [{ l with depth := ls.depth }]
       | none => []) }

/-- `Locals::resolve`: find the rightmost local with the symbol; the
slot is its position from the left, paired with whether it is
initialized (depth distinct from `-1`). -/
def resolve (ls : Locals) (sym : Nat) : Option (Nat × Bool) :=
  match ls.locals.reverse.findIdx? (fun l => l.sym = sym) with
  | none => none
  | some i =>
    let slot := ls.locals.length - i - 1
    some (slot, (ls.locals.getD slot default).depth ≠ -1)

/-- `Locals::top_level`. -/
def top_level (ls : Locals) : Bool :=
  ls.depth = 0

end Locals

/-- `parser::LoopInfo`. -/
structure LoopInfo where
  depth : Int
  loop_start : Nat
  exit_jump : Nat
deriving DecidableEq

/-- `parser::Parser` (the compiler).  The lazy scanner is replaced by
the list of the tokens it would produce (the parser claims are stated
over token streams); `stderr` is the `errors` list; the `vm` the Rust
parser mutates for symbol interning is the `syms` field. -/
structure Parser where
  tokens : List Tok
  current : Tok
  previous : Tok
  had_error : Bool
  panic_mode : Bool
  locals : Locals
  chunks : List Chunk
  syms : SymTable
  errors : List String

namespace Parser

/-- `Parser::chunk` (the chunk under construction, `chunks[len-1]`). -/
def chunk (p : Parser) : Chunk :=
  p.chunks.getLastD default

/-- Write back the chunk under construction (`&mut self.chunks[idx]`). -/
def setChunk (p : Parser) (c : Chunk) : Parser :=
  { p with chunks := p.chunks.dropLast ++ [c] }

/-- `Parser::advance`: shift `current` into `previous`, take the next
token (the scanner yields `Eof` forever at the end of input, at the
current line), and record a line change in the line map.  The scan
error loop is not modelled: the token list stands for a successfully
scanned stream. -/
def advance (p : Parser) : Parser :=
  let prev := p.current
  let (tok, rest) :=
    match p.tokens with
    | [] => (({ ty := .Eof, text := "", line := p.current.line } : Tok), ([] : List Tok))
    | t :: ts => (t, ts)
  let p := { p with previous := prev, current := tok, tokens := rest }
  if tok.line ≠ prev.line then p.setChunk (p.chunk.new_line tok.line) else p

/-- `Parser::check`. -/
def check (p : Parser) (ty : TokenType) : Bool :=
  p.current.ty = ty

/-- `Parser::matches`: consume the current token when it has the
given kind. -/
def matchesTok (p : Parser) (ty : TokenType) : Bool × Parser :=
  if p.check ty then (true, p.advance) else (false, p)

/-- `Parser::report_error`: in panic mode do nothing; otherwise enter
panic mode, set `had_error` and write the diagnostic line. -/
def report_error (p : Parser) (line : Nat) (msg : String) : Parser :=
  if p.panic_mode then p
  else
    { p with panic_mode := true, had_error := true,
             errors := p.errors ++ ["[line " ++ toString line ++ "] Error" ++ msg] }

/-- `Parser::error_at`: decorate with ` at end` / ` at {lexeme}`. -/
def error_at (p : Parser) (tok : Tok) (msg : String) : Parser :=
  let m :=
    match tok.ty with
    | .Eof => " at end: " ++ msg
    | _ => " at \x27" ++ tok.text ++ "\x27: " ++ msg
  p.report_error tok.line m

/-- `Parser::error` (at the previous token). -/
def errorMsg (p : Parser) (msg : String) : Parser :=
  p.error_at p.previous msg

/-- `Parser::consume`. -/
def consume (p : Parser) (ty : TokenType) (msg : String) : Parser :=
  if p.current.ty = ty then p.advance else p.error_at p.current msg

/-- `Parser::token_text` (of the previous token). -/
def token_text (p : Parser) : String :=
  p.previous.text

/-- `Vm::get_symbol` as the parser calls it: intern in the VM symbol
table. -/
def get_symbol (p : Parser) (ident : String) : Nat × Parser :=
  let (sym, t) := p.syms.intern ident
  (sym, { p with syms := t })

/-- `Parser::emit_op`. -/
def emit_op (p : Parser) (op : Nat) : Parser :=
  p.setChunk (p.chunk.write_op op)

/-- `Parser::emit_op_arg`. -/
def emit_op_arg (p : Parser) (op arg : Nat) : Parser :=
  p.setChunk (p.chunk.write_op_arg op arg)

/-- `Parser::emit_jump`. -/
def emit_jump (p : Parser) (op : Nat) : Nat × Parser :=
  let (off, c) := p.chunk.write_jump op
  (off, p.setChunk c)

/-- `Parser::emit_loop`: the delta is `len - dest + 1`, plus one more
when the encoding of the delta itself adds an `Extend` unit; overflow
past 0xffff is a compile error (and the op is still emitted). -/
def emit_loop (p : Parser) (dest : Nat) : Parser :=
  let delta := p.chunk.code.length - dest + 1
  let delta := if delta > 0xff then delta + 1 else delta
  let p := if delta > 0xffff then p.errorMsg "loop body too large" else p
  p.emit_op_arg Op.Loop delta

/-- `Parser::patch_jump`: forward jumps are always two units; the
delta is truncated to `u16` when written (the cast in the source). -/
def patch_jump (p : Parser) (origin : Nat) : Parser :=
  let delta := p.chunk.code.length - origin - 2
  let p := if delta > 0xffff then p.errorMsg "too much code to jump over" else p
  p.setChunk (p.chunk.patch_jump origin (delta % 65536))

/-- `Parser::emit_constant`: add to the pool, reporting pool overflow
as a compile error; on success emit `Constant` with the new index. -/
def emit_constant (p : Parser) (v : Value) : Parser :=
  match p.chunk.add_constant v with
  | (.error e, _) => p.errorMsg e
  | (.ok idx, c) => p.setChunk (c.write_op_arg Op.Constant idx)

/-- `Parser::begin_scope`. -/
def begin_scope (p : Parser) : Parser :=
  { p with locals := p.locals.begin_scope }

/-- `Parser::end_scope`: emit `Pop` for exactly one discarded local,
`PopN` for several. -/
def end_scope (p : Parser) : Parser :=
  let (n, ls) := p.locals.end_scope
  let p := { p with locals := ls }
  if n = 1 then p.emit_op Op.Pop
  else if n > 1 then p.emit_op_arg Op.PopN n
  else p

/-- Digit folding for `str::parse::<f64>` on the scanner number
lexemes (one or more digits, optionally a dot and more digits). -/
def natOfDigits (l : List Char) : Nat :=
  l.foldl (fun a c => a * 10 + (c.toNat - 48)) 0

/-- `token_text.parse::<f64>().unwrap()` on a scanned number lexeme:
integer part plus fractional part. -/
def parseNumberF (lit : String) : F64 :=
  match lit.splitOn "." with
  | [i] => .num (natOfDigits i.toList)
  | [i, f] => .num ((natOfDigits i.toList : ℚ) + (natOfDigits f.toList : ℚ) / ((10 : ℚ) ^ f.length))
  | _ => .nan

/-- `Parser::number`. -/
def number (p : Parser) : Parser :=
  p.emit_constant (Value.number (parseNumberF p.token_text))

/-- `Parser::string`: strip the quotes, make the string value
(`Vm::new_string`), emit it as a constant. -/
def stringRule (p : Parser) : Parser :=
  let raw := p.token_text
  p.emit_constant (Value.str ((raw.drop 1).dropRight 1))

/-- `Parser::literal`. -/
def literal (p : Parser) : Parser :=
  match p.previous.ty with
  | .Nil => p.emit_op Op.Nil
  | .True => p.emit_op Op.True
  | .False => p.emit_op Op.False
  | _ => p

/-- `Parser::break_statement`. -/
def break_statement (p : Parser) (lp : Option LoopInfo) : Parser :=
  let p := p.consume .Semicolon "expect \x27;\x27 after \x27break\x27"
  match lp with
  | none => p.errorMsg "\x27break\x27 outside of loop"
  | some lp =>
    let n := p.locals.count_to_depth lp.depth
    let p := if n > 0 then p.emit_op_arg Op.PopN n else p
    let p := p.emit_op Op.False
    p.emit_loop lp.exit_jump

/-- `Parser::continue_statement`. -/
def continue_statement (p : Parser) (lp : Option LoopInfo) : Parser :=
  let p := p.consume .Semicolon "expect \x27;\x27 after \x27continue\x27"
  match lp with
  | none => p.errorMsg "\x27continue\x27 outside of loop"
  | some lp =>
    let n := p.locals.count_to_depth lp.depth
    let p := if n > 0 then p.emit_op_arg Op.PopN n else p
    p.emit_loop lp.loop_start

end Parser

/-- The skip loop of `Parser::synchronize`. -/
def syncLoop : Nat → Parser → Parser
  | 0, p => p
  | fuel + 1, p =>
    if p.current.ty ≠ .Eof then
      if p.previous.ty = .Semicolon then p
      else
        match p.current.ty with
        | .Class | .Fun | .Var | .For | .If | .While | .Print | .Return => p
        | _ => syncLoop fuel p.advance
    else p

/-- `Parser::synchronize`: leave panic mode and skip to a statement
boundary. -/
def Parser.synchronize (fuel : Nat) (p : Parser) : Parser :=
  syncLoop fuel { p with panic_mode := false }

mutual

/-- `Parser::parse_precedence`: advance, dispatch the prefix rule on
the previous token (reporting "expect expression" and returning when
there is none), then run the infix loop and the trailing invalid
assignment check (`ppTail`). -/
def parse_precedence (fuel : Nat) (precedence : Nat) (p : Parser) : Parser :=
  match fuel with
  | 0 => p
  | fuel + 1 =>
    let p := p.advance
    let canAssign := precedence ≤ Prec.Assignment
    match p.previous.ty with
    | .LeftParen => ppTail fuel precedence canAssign (grouping fuel p)
    | .Minus => ppTail fuel precedence canAssign (unary fuel p)
    | .Bang => ppTail fuel precedence canAssign (unary fuel p)
    | .Number => ppTail fuel precedence canAssign p.number
    | .Identifier => ppTail fuel precedence canAssign (variableRule fuel canAssign p)
    | .String => ppTail fuel precedence canAssign p.stringRule
    | .Nil => ppTail fuel precedence canAssign p.literal
    | .True => ppTail fuel precedence canAssign p.literal
    | .False => ppTail fuel precedence canAssign p.literal
    | _ => p.errorMsg "expect expression"

/-- The part of `parse_precedence` after a successful prefix rule:
the infix loop, then `if can_assign && matches(Equal)` report
"invalid assignment target". -/
def ppTail (fuel : Nat) (precedence : Nat) (canAssign : Bool) (p : Parser) : Parser :=
  match fuel with
  | 0 => p
  | fuel + 1 =>
    let p := ppLoop fuel precedence p
    if canAssign then
      let (m, p) := p.matchesTok .Equal
      if m then p.errorMsg "invalid assignment target" else p
    else p

/-- The infix loop of `parse_precedence`: while the current token has
infix precedence at least `precedence`, consume it and run its infix
rule (`binary`, `and`, `or`; the `unreachable` default keeps the
state). -/
def ppLoop (fuel : Nat) (precedence : Nat) (p : Parser) : Parser :=
  match fuel with
  | 0 => p
  | fuel + 1 =>
    if precedence ≤ Prec.for_op_type p.current.ty then
      let p := p.advance
      let p :=
        match p.previous.ty with
        | .Minus | .Plus | .Slash | .Star | .EqualEqual | .BangEqual
        | .Greater | .GreaterEqual | .Less | .LessEqual => binary fuel p
        | .And => andRule fuel p
        | .Or => orRule fuel p
        | _ => p
      ppLoop fuel precedence p
    else p

/-- `Parser::binary`: parse the right operand one level tighter, then
emit the operator: `!=` as `Equal Not`, `>=` as `Less Not`, `<=` as
`Greater Not`. -/
def binary (fuel : Nat) (p : Parser) : Parser :=
  match fuel with
  | 0 => p
  | fuel + 1 =>
    let operatorType := p.previous.ty
    let p := parse_precedence fuel (Prec.for_op_type operatorType + 1) p
    match operatorType with
    | .Plus => p.emit_op Op.Add
    | .Minus => p.emit_op Op.Subtract
    | .Star => p.emit_op Op.Multiply
    | .Slash => p.emit_op Op.Divide
    | .EqualEqual => p.emit_op Op.Equal
    | .Less => p.emit_op Op.Less
    | .Greater => p.emit_op Op.Greater
    | .BangEqual => (p.emit_op Op.Equal).emit_op Op.Not
    | .GreaterEqual => (p.emit_op Op.Less).emit_op Op.Not
    | .LessEqual => (p.emit_op Op.Greater).emit_op Op.Not
    | _ => p

/-- `Parser::grouping`. -/
def grouping (fuel : Nat) (p : Parser) : Parser :=
  match fuel with
  | 0 => p
  | fuel + 1 =>
    (expression fuel p).consume .RightParen "expect \x27)\x27 after expression"

/-- `Parser::unary`. -/
def unary (fuel : Nat) (p : Parser) : Parser :=
  match fuel with
  | 0 => p
  | fuel + 1 =>
    let operatorType := p.previous.ty
    let p := parse_precedence fuel Prec.Unary p
    match operatorType with
    | .Minus => p.emit_op Op.Negate
    | .Bang => p.emit_op Op.Not
    | _ => p

/-- `Parser::and`. -/
def andRule (fuel : Nat) (p : Parser) : Parser :=
  match fuel with
  | 0 => p
  | fuel + 1 =>
    let (endJump, p) := p.emit_jump Op.JumpIfFalse
    let p := p.emit_op Op.Pop
    let p := parse_precedence fuel Prec.And p
    p.patch_jump endJump

/-- `Parser::or`. -/
def orRule (fuel : Nat) (p : Parser) : Parser :=
  match fuel with
  | 0 => p
  | fuel + 1 =>
    let (elseJump, p) := p.emit_jump Op.JumpIfFalse
    let (endJump, p) := p.emit_jump Op.Jump
    let p := p.patch_jump elseJump
    let p := p.emit_op Op.Pop
    let p := parse_precedence fuel Prec.Or p
    p.patch_jump endJump

/-- `Parser::variable`: resolve the identifier to local slot or
global symbol and emit the get (or, as an assignment target, parse
the right-hand side and emit the set). -/
def variableRule (fuel : Nat) (canAssign : Bool) (p : Parser) : Parser :=
  match fuel with
  | 0 => p
  | fuel + 1 =>
    let (sym, p) := p.get_symbol p.token_text
    let (opSet, opGet, arg, p) :=
      match p.locals.resolve sym with
      | none => (Op.SetGlobal, Op.GetGlobal, sym, p)
      | some (slot, isInit) =>
        let p :=
          if !isInit then
            p.errorMsg "can\x27t read local variable in its own initializer"
          else p
        (Op.SetLocal, Op.GetLocal, slot, p)
    if canAssign then
      let (m, p) := p.matchesTok .Equal
      if m then (expression fuel p).emit_op_arg opSet arg
      else p.emit_op_arg opGet arg
    else p.emit_op_arg opGet arg

/-- `Parser::expression`. -/
def expression (fuel : Nat) (p : Parser) : Parser :=
  match fuel with
  | 0 => p
  | fuel + 1 => parse_precedence fuel Prec.Assignment p

/-- `Parser::expression_statement`. -/
def expression_statement (fuel : Nat) (p : Parser) : Parser :=
  match fuel with
  | 0 => p
  | fuel + 1 =>
    (((expression fuel p).consume .Semicolon
        "expect \x27;\x27 after expression")).emit_op Op.Pop

/-- `Parser::print_statement`. -/
def print_statement (fuel : Nat) (p : Parser) : Parser :=
  match fuel with
  | 0 => p
  | fuel + 1 =>
    (((expression fuel p).consume .Semicolon
        "expect \x27;\x27 after value")).emit_op Op.Print

/-- `Parser::if_statement`. -/
def if_statement (fuel : Nat) (lp : Option LoopInfo) (p : Parser) : Parser :=
  match fuel with
  | 0 => p
  | fuel + 1 =>
    let p := p.consume .LeftParen "expect \x27(\x27 after \x27if\x27"
    let p := expression fuel p
    let p := p.consume .RightParen "expect \x27)\x27 after condition"
    let (thenJump, p) := p.emit_jump Op.JumpIfFalse
    let p := p.emit_op Op.Pop
    let p := statement fuel lp p
    let (elseJump, p) := p.emit_jump Op.Jump
    let p := p.patch_jump thenJump
    let p := p.emit_op Op.Pop
    let (m, p) := p.matchesTok .Else
    let p := if m then statement fuel lp p else p
    p.patch_jump elseJump

/-- `Parser::while_statement`. -/
def while_statement (fuel : Nat) (p : Parser) : Parser :=
  match fuel with
  | 0 => p
  | fuel + 1 =>
    let loopStart := p.chunk.code.length
    let p := p.consume .LeftParen "expect \x27(\x27 after \x27while\x27"
    let p := expression fuel p
    let p := p.consume .RightParen "expect \x27)\x27 after condition"
    let (exitJump, p) := p.emit_jump Op.JumpIfFalse
    let p := p.emit_op Op.Pop
    let lp := some ({ depth := p.locals.depth, loop_start := loopStart,
                      exit_jump := exitJump } : LoopInfo)
    let p := statement fuel lp p
    let p := p.emit_loop loopStart
    let p := p.patch_jump exitJump
    p.emit_op Op.Pop

/-- `Parser::for_statement`. -/
def for_statement (fuel : Nat) (p : Parser) : Parser :=
  match fuel with
  | 0 => p
  | fuel + 1 =>
    let p := p.begin_scope
    let p := p.consume .LeftParen "expect \x27(\x27 after for"
    let (m₁, p) := p.matchesTok .Semicolon
    let p :=
      if m₁ then p
      else
        let (mv, p) := p.matchesTok .Var
        if mv then var_declaration fuel p else expression_statement fuel p
    let loopStart := p.chunk.code.length
    let (m₂, p) := p.matchesTok .Semicolon
    let p :=
      if m₂ then p.emit_op Op.True
      else
        (expression fuel p).consume .Semicolon "expect \x27;\x27 after loop condition"
    let (exitJump, p) := p.emit_jump Op.JumpIfFalse
    let p := p.emit_op Op.Pop
    let (mrp, p) := p.matchesTok .RightParen
    let (loopStart, p) :=
      if mrp then (loopStart, p)
      else
        let (bodyJump, p) := p.emit_jump Op.Jump
        let incrementStart := p.chunk.code.length
        let p := expression fuel p
        let p := p.emit_op Op.Pop
        let p := p.consume .RightParen "expect \x27)\x27 after loop clauses"
        let p := p.emit_loop loopStart
        let p := p.patch_jump bodyJump
        (incrementStart, p)
    let lp := some ({ depth := p.locals.depth, loop_start := loopStart,
                      exit_jump := exitJump } : LoopInfo)
    let p := statement fuel lp p
    let p := p.emit_loop loopStart
    let p := p.patch_jump exitJump
    let p := p.emit_op Op.Pop
    p.end_scope

/-- `Parser::switch_statement`: a scope containing the synthesized
test local, then the case loop, then the accumulated end-of-case
jumps are patched. -/
def switch_statement (fuel : Nat) (lp : Option LoopInfo) (p : Parser) : Parser :=
  match fuel with
  | 0 => p
  | fuel + 1 =>
    let p := p.begin_scope
    let p := p.consume .LeftParen "expect \x27(\x27 after \x27switch\x27"
    let (testSlot, ls) := p.locals.inject
    let p := { p with locals := ls }
    let p := expression fuel p
    let p := p.consume .RightParen "expect \x27)\x27 after switch expression"
    let p := p.consume .LeftBrace "expect \x27\x7b\x27 before switch body"
    let (patchTrue, p) := switchLoop fuel testSlot none [] lp p
    let p := p.consume .RightBrace "expect \x27\x7d\x27 after switch body"
    let p := patchTrue.foldl (fun p origin => p.patch_jump origin) p
    p.end_scope

/-- The `while` loop of `Parser::switch_statement`: each iteration
patches the previous case test jump, requires `case` or `default`,
compiles the test (`GetLocal` on the synthesized slot, the case
expression, `Equal`, `JumpIfFalse`, `Pop`) for a non-default case,
compiles the case body, and for a non-final non-default case records
an exit `Jump`.  Returns the recorded jumps with the parser. -/
def switchLoop (fuel : Nat) (testSlot : Nat) (patchFalse : Option Nat)
    (patchTrue : List Nat) (lp : Option LoopInfo) (p : Parser) :
    List Nat × Parser :=
  match fuel with
  | 0 => (patchTrue, p)
  | fuel + 1 =>
    if !(p.check .RightBrace) && !(p.check .Eof) then
      let p :=
        match patchFalse with
        | some jump => (p.patch_jump jump).emit_op Op.Pop
        | none => p
      let (m, p) :=
        let (mc, p) := p.matchesTok .Case
        if mc then (true, p) else p.matchesTok .Default
      if m then
        let isDefault := p.previous.ty = .Default
        let (patchFalse, p) :=
          if !isDefault then
            let p := p.emit_op_arg Op.GetLocal testSlot
            let p := expression fuel p
            let p := p.emit_op Op.Equal
            let (j, p) := p.emit_jump Op.JumpIfFalse
            (some j, p.emit_op Op.Pop)
          else (patchFalse, p)
        let p := p.consume .Colon "expect \x27:\x27 after switch expression"
        let p := switch_case fuel lp p
        if isDefault then
          let p :=
            if !(p.check .RightBrace) then
              p.errorMsg "default case must be the last case"
            else p
          (patchTrue, p)
        else
          let (patchTrue, p) :=
            if !(p.check .RightBrace) then
              let (j, p) := p.emit_jump Op.Jump
              (patchTrue ++ [j], p)
            else (patchTrue, p)
          switchLoop fuel testSlot patchFalse patchTrue lp p
      else (patchTrue, p.errorMsg "expect switch case")
    else (patchTrue, p)

/-- `Parser::switch_case`: statements until a `;`-terminated one (or
the body/case end), else require a `;`. -/
def switch_case (fuel : Nat) (lp : Option LoopInfo) (p : Parser) : Parser :=
  match fuel with
  | 0 => p
  | fuel + 1 =>
    if !(p.check .Semicolon) && !(p.check .Eof) then
      let p := statement fuel lp p
      if p.previous.ty = .Semicolon then p
      else switch_case fuel lp p
    else p.consume .Semicolon "expect \x27;\x27 after switch case"

/-- `Parser::block`. -/
def block (fuel : Nat) (lp : Option LoopInfo) (p : Parser) : Parser :=
  match fuel with
  | 0 => p
  | fuel + 1 =>
    if !(p.check .RightBrace) && !(p.check .Eof) then
      block fuel lp (declaration fuel lp p)
    else p.consume .RightBrace "expect \x27\x7d\x27 after block"

/-- `Parser::statement`. -/
def statement (fuel : Nat) (lp : Option LoopInfo) (p : Parser) : Parser :=
  match fuel with
  | 0 => p
  | fuel + 1 =>
    let (m, p) := p.matchesTok .Print
    if m then print_statement fuel p else
    let (m, p) := p.matchesTok .For
    if m then for_statement fuel p else
    let (m, p) := p.matchesTok .If
    if m then if_statement fuel lp p else
    let (m, p) := p.matchesTok .While
    if m then while_statement fuel p else
    let (m, p) := p.matchesTok .Break
    if m then p.break_statement lp else
    let (m, p) := p.matchesTok .Continue
    if m then p.continue_statement lp else
    let (m, p) := p.matchesTok .Switch
    if m then switch_statement fuel lp p else
    let (m, p) := p.matchesTok .LeftBrace
    if m then (block fuel lp p.begin_scope).end_scope
    else expression_statement fuel p

/-- `Parser::declaration`. -/
def declaration (fuel : Nat) (lp : Option LoopInfo) (p : Parser) : Parser :=
  match fuel with
  | 0 => p
  | fuel + 1 =>
    let (m, p) := p.matchesTok .Var
    let p := if m then var_declaration fuel p else statement fuel lp p
    if p.panic_mode then p.synchronize fuel else p

/-- `Parser::var_declaration`. -/
def var_declaration (fuel : Nat) (p : Parser) : Parser :=
  match fuel with
  | 0 => p
  | fuel + 1 =>
    let p := p.consume .Identifier "expect variable name"
    let (sym, p) := p.get_symbol p.token_text
    let p :=
      if !p.locals.top_level then
        let (ok, ls) := p.locals.add sym
        let p := { p with locals := ls }
        if !ok then
          p.errorMsg "already a variable with this name in this scope"
        else p
      else p
    let (m, p) := p.matchesTok .Equal
    let p := if m then expression fuel p else p.emit_op Op.Nil
    let p := p.consume .Semicolon "expect \x27;\x27 after variable declaration"
    if p.locals.top_level then p.emit_op_arg Op.DefineGlobal sym
    else { p with locals := p.locals.mark_initialized }

/-- The `while !matches(Eof)` loop of `Parser::parse`. -/
def parseLoop (fuel : Nat) (p : Parser) : Parser :=
  match fuel with
  | 0 => p
  | fuel + 1 =>
    let (m, p) := p.matchesTok .Eof
    if m then p
    else parseLoop fuel (declaration fuel none p)

end

/-- `Parser::new`: default tokens, clear flags, empty locals, no
chunks yet; plus the fresh VM symbol table the Rust caller passes
in. -/
def Parser.mk0 (toks : List Tok) : Parser :=
  { tokens := toks, current := default, previous := default,
    had_error := false, panic_mode := false,
    locals := { depth := 0, locals := [] }, chunks := [],
    syms := .new, errors := [] }

/-- `Parser::parse`: push the script chunk, prime the token pair,
compile declarations to `Eof`, emit the final `Return`, pop the chunk
and return it unless a compile error was reported. -/
def parse (fuel : Nat) (toks : List Tok) : Option Chunk × Parser :=
  let p := Parser.mk0 toks
  let p := { p with chunks := p.chunks ++ [(default : Chunk)] }
  let p := p.advance
  let p := parseLoop fuel p
  let p := p.emit_op Op.Return
  let c := p.chunk
  let p := { p with chunks := p.chunks.dropLast }
  (if p.had_error then none else some c, p)

/-! ## Concrete fixtures used by the claim theorems -/

/-- A VM as `Vm::new` builds it, before `add_native` (the globals and
symbols are irrelevant to the claims using it). -/
def vm0 : Vm :=
  { stdout := [], frames := [], stack := [], globals := [], symbols := .new }

/-- A one-line token. -/
def mkTok (ty : TokenType) (text : String) : Tok :=
  ⟨ty, text, 1⟩

/-- Tokens of the source `f(1);`. -/
def callToks : List Tok :=
  [mkTok .Identifier "f", mkTok .LeftParen "(", mkTok .Number "1",
   mkTok .RightParen ")", mkTok .Semicolon ";", mkTok .Eof ""]

/-- Tokens of the source `switch (1) { case 1: print 2; }`. -/
def switchToks : List Tok :=
  [mkTok .Switch "switch", mkTok .LeftParen "(", mkTok .Number "1",
   mkTok .RightParen ")", mkTok .LeftBrace "\x7b", mkTok .Case "case",
   mkTok .Number "1", mkTok .Colon ":", mkTok .Print "print",
   mkTok .Number "2", mkTok .Semicolon ";", mkTok .RightBrace "\x7d",
   mkTok .Eof ""]

/-- Tokens of the source `fun foo() {}`. -/
def funToks : List Tok :=
  [mkTok .Fun "fun", mkTok .Identifier "foo", mkTok .LeftParen "(",
   mkTok .RightParen ")", mkTok .LeftBrace "\x7b", mkTok .RightBrace "\x7d",
   mkTok .Eof ""]

/-- Tokens of the binary expression `1 OP 2`. -/
def binToks (ty : TokenType) (text : String) : List Tok :=
  [mkTok .Number "1", mkTok ty text, mkTok .Number "2", mkTok .Eof ""]

/-- Run `parse_precedence` the way `Parser::parse` reaches it: fresh
parser over the tokens, script chunk pushed, tokens primed by one
`advance`. -/
def exprParse (fuel : Nat) (precedence : Nat) (toks : List Tok) : Parser :=
  parse_precedence fuel precedence
    ({ Parser.mk0 toks with chunks := [(default : Chunk)] }).advance

/-- A chunk of zero-operand instructions, each attributed to line 1. -/
def cmpChunk (ops : List Nat) : Chunk :=
  { code := ops.map (fun op => mkBytecode op 0), constants := [],
    lines := ops.map (fun _ => 1), lineCurrent := 1 }

/-- A zero-arity function over `cmpChunk ops`. -/
def cmpFunc (ops : List Nat) : LoxFunction :=
  ⟨"", 0, cmpChunk ops⟩

/-- A script whose single instruction negates the reserved `Nil` in
stack slot 0: `Op::Negate` on a non-number raises at runtime. -/
def negScript : LoxFunction :=
  ⟨"<script>", 0,
   { code := [mkBytecode Op.Negate 0], constants := [], lines := [1],
     lineCurrent := 1 }⟩

/-- The registered `clock` builtin value (`Vm::add_native`). -/
def clockValue : Value :=
  Value.builtin "clock" 0 .clock

/-- The VM state after `Vm::run` of `negScript` from `vm0` raises:
the value stack is cleared but the script frame is still present. -/
def vmErrC2 : Vm :=
  { vm0 with
    stack := ([] : List Value)
    frames := [({ func := negScript, offset := 0, base := 0 } : Frame)] }

/-! # Theorems -/

/-! ## C7: `Vm::push` and the stack bound -/

/-- C7.  A push succeeds exactly when the stack holds fewer than
`MAX_STACK = 65536` values, appending the value; at `MAX_STACK` or
beyond it fails with "stack overflow" and (the error carrying no
state) the stack is unchanged. -/
theorem c7_push_bound (s : Vm) (v : Value) :
    Vm.MAX_STACK = 65536 ∧
    (s.stack.length < 65536 →
      s.push v = .ok { s with stack := s.stack ++ [v] }) ∧
    (65536 ≤ s.stack.length →
      s.push v = .error ⟨"stack overflow"⟩) := by
  refine ⟨rfl, fun h => ?_, fun h => ?_⟩
  · simp [Vm.push, Vm.MAX_STACK, h]
  · simp [Vm.push, Vm.MAX_STACK, Nat.not_lt.mpr h]

/-- C7 witness: pushing the 65536th value (length 65535) succeeds;
pushing onto a full stack (length 65536) fails with "stack
overflow". -/
theorem c7_push_bound_witness :
    ({ vm0 with stack := List.replicate 65535 Value.nil } : Vm).push Value.nil =
      .ok { vm0 with stack := List.replicate 65535 Value.nil ++ [Value.nil] } ∧
    ({ vm0 with stack := List.replicate 65536 Value.nil } : Vm).push Value.nil =
      .error ⟨"stack overflow"⟩ := by
  constructor
  · exact (c7_push_bound { vm0 with stack := List.replicate 65535 Value.nil }
      Value.nil).2.1 (by rw [List.length_replicate]; decide)
  · exact (c7_push_bound { vm0 with stack := List.replicate 65536 Value.nil }
      Value.nil).2.2 (by rw [List.length_replicate])

/-! ## C6: `Chunk::add_constant` and the constant-pool bound -/

/-- C6.  While the pool permits another constant, `add_constant`
succeeds and returns the current pool size as the index; at
`MAX_CONSTS = 0xffffff` entries it fails with "too many constants in
one chunk" and leaves the chunk unchanged. -/
theorem c6_add_constant_bound (c : Chunk) (v : Value) :
    ChunkG.MAX_CONSTS = 0xffffff ∧
    (c.constants.length < 0xffffff →
      c.add_constant v = (.ok c.constants.length,
        { c with constants := c.constants ++ [v] })) ∧
    (c.constants.length = 0xffffff →
      c.add_constant v = (.error "too many constants in one chunk", c)) := by
  refine ⟨rfl, fun h => ?_, fun h => ?_⟩
  · simp [ChunkG.add_constant, ChunkG.MAX_CONSTS, Nat.not_le.mpr h]
  · simp [ChunkG.add_constant, ChunkG.MAX_CONSTS, h]

/-- C6 witness: the 0xFFFFFFth constant (pool size 0xFFFFFE before the
call) is accepted with index 0xFFFFFE, and a call on a pool of
0xFFFFFF entries fails leaving the pool unchanged. -/
theorem c6_add_constant_bound_witness :
    ({ (default : Chunk) with constants := List.replicate 0xfffffe Value.nil } : Chunk).add_constant Value.nil =
      (.ok 0xfffffe,
       { (default : Chunk) with constants := List.replicate 0xfffffe Value.nil ++ [Value.nil] }) ∧
    ({ (default : Chunk) with constants := List.replicate 0xffffff Value.nil } : Chunk).add_constant Value.nil =
      (.error "too many constants in one chunk",
       { (default : Chunk) with constants := List.replicate 0xffffff Value.nil }) := by
  constructor
  · have h := (c6_add_constant_bound
      { (default : Chunk) with constants := List.replicate 0xfffffe Value.nil }
      Value.nil).2.1 (by rw [List.length_replicate]; decide)
    rwa [List.length_replicate] at h
  · exact (c6_add_constant_bound
      { (default : Chunk) with constants := List.replicate 0xffffff Value.nil }
      Value.nil).2.2 (by rw [List.length_replicate])

/-! ## C8: symbol-table round trips -/

/-- A key found by `List.lookup` is a member of the list. -/
theorem lookup_mem {l : List (String × Nat)} {k : String} {v : Nat}
    (h : l.lookup k = some v) : (k, v) ∈ l := by
  induction l with
  | nil => simp [List.lookup] at h
  | cons p rest ih =>
    rcases p with ⟨a, b⟩
    by_cases hk : k = a
    · subst hk
      have hb : List.lookup k ((k, b) :: rest) = some b := by simp [List.lookup]
      rw [hb] at h
      cases Option.some.inj h
      exact List.mem_cons_self _ _
    · have hba : (k == a) = false := by simp [hk]
      have hb : List.lookup k ((a, b) :: rest) = List.lookup k rest := by
        simp [List.lookup, hba]
      rw [hb] at h
      exact List.mem_cons_of_mem _ (ih h)

/-- C8.  Over a well-formed table, interning the same string twice
returns the same id, looking up the interned id returns the string, a
string not yet present receives the dense id `names.length` (the
number of identifiers interned before it), and the table stays
well-formed. -/
theorem c8_intern_lookup (t : SymTable) (s : String) (h : t.Wf) :
    ((t.intern s).2.intern s).1 = (t.intern s).1 ∧
    (t.intern s).2.lookup (t.intern s).1 = s ∧
    (t.symbols.lookup s = none → (t.intern s).1 = t.names.length) ∧
    (t.intern s).2.Wf := by
  cases hl : t.symbols.lookup s with
  | some sym =>
    have hmem : (s, sym) ∈ t.symbols := lookup_mem hl
    have hname := h _ hmem
    refine ⟨?_, ?_, ?_, ?_⟩
    · simp [SymTable.intern, hl]
    · simp [SymTable.intern, hl, SymTable.lookup, List.getD_eq_getElem?_getD, hname]
    · intro hc; simp [hl] at hc
    · simpa [SymTable.intern, hl] using h
  | none =>
    refine ⟨?_, ?_, ?_, ?_⟩
    · simp [SymTable.intern, hl, List.lookup]
    · simp [SymTable.intern, hl, SymTable.lookup, List.getD_eq_getElem?_getD,
        List.getElem?_concat_length]
    · intro _; simp [SymTable.intern, hl]
    · intro p hp
      simp only [SymTable.intern, hl] at hp ⊢
      rcases List.mem_cons.mp hp with hp | hp
      · subst hp
        simp [List.getElem?_concat_length]
      · have hw := h _ hp
        have hlt : p.2 < t.names.length := (List.getElem?_eq_some.mp hw).1
        rw [List.getElem?_append_left hlt]
        exact hw

/-- C8 witness: the empty table is well-formed and interning "x"
twice behaves as claimed. -/
theorem c8_intern_lookup_witness :
    ((SymTable.new.intern "x").2.intern "x").1 = (SymTable.new.intern "x").1 ∧
    (SymTable.new.intern "x").2.lookup (SymTable.new.intern "x").1 = "x" ∧
    (SymTable.new.symbols.lookup "x" = none →
      (SymTable.new.intern "x").1 = SymTable.new.names.length) ∧
    (SymTable.new.intern "x").2.Wf :=
  c8_intern_lookup SymTable.new "x" (by simp [SymTable.Wf, SymTable.new])

/-! ## C9: string scanning and line numbers -/

/-- Without a closing quote the skip loop consumes everything,
counting the newlines. -/
theorem scanStringLoop_no_quote (bytes : List Nat) (line₀ : Nat)
    (h : 34 ∉ bytes) :
    scanStringLoop bytes line₀ = ([], line₀ + bytes.count 10) := by
  induction bytes generalizing line₀ with
  | nil => simp [scanStringLoop]
  | cons c rest ih =>
    have hc : c ≠ 34 := fun hc => h (hc ▸ List.mem_cons_self c rest)
    have hr : 34 ∉ rest := fun hr => h (List.mem_cons_of_mem c hr)
    by_cases h10 : c = 10
    · subst h10
      rw [scanStringLoop, if_pos rfl, ih _ hr, List.count_cons_self]
      simp only [Prod.mk.injEq, true_and]
      omega
    · rw [scanStringLoop, if_neg h10, if_pos hc, ih _ hr,
        List.count_cons_of_ne (Ne.symm h10)]

/-- With a closing quote the skip loop stops on it, counting the
newlines before it. -/
theorem scanStringLoop_quote (pre post : List Nat) (line₀ : Nat)
    (h : 34 ∉ pre) :
    scanStringLoop (pre ++ 34 :: post) line₀ =
      (34 :: post, line₀ + pre.count 10) := by
  induction pre generalizing line₀ with
  | nil => simp [scanStringLoop]
  | cons c rest ih =>
    have hc : c ≠ 34 := fun hc => h (hc ▸ List.mem_cons_self c rest)
    have hr : 34 ∉ rest := fun hr => h (List.mem_cons_of_mem c hr)
    by_cases h10 : c = 10
    · subst h10
      rw [List.cons_append, scanStringLoop, if_pos rfl, ih _ hr,
        List.count_cons_self]
      simp only [Prod.mk.injEq, true_and]
      omega
    · rw [List.cons_append, scanStringLoop, if_neg h10, if_pos hc, ih _ hr,
        List.count_cons_of_ne (Ne.symm h10)]

/-- C9.  Scanning a string literal body: with no closing quote before
end of input it fails with "unterminated string" and the scanner line
is restored to the opening line (newlines seen inside notwithstanding),
which `Parser::scan_error` then reports; with a closing quote it
succeeds with a `String` token and the line counter advanced by one
per newline inside the literal. -/
theorem c9_string_scanning (bytes : List Nat) (line₀ : Nat) :
    (34 ∉ bytes →
      Scanner.string ⟨bytes, line₀⟩ =
        (.error "unterminated string", ⟨[], line₀⟩)) ∧
    (∀ pre post, bytes = pre ++ 34 :: post → 34 ∉ pre →
      Scanner.string ⟨bytes, line₀⟩ =
        (.ok TokenType.String, ⟨post, line₀ + pre.count 10⟩)) := by
  constructor
  · intro h
    simp [Scanner.string, scanStringLoop_no_quote bytes line₀ h]
  · intro pre post hb h
    subst hb
    simp [Scanner.string, scanStringLoop_quote pre post line₀ h]

/-- C9 witness: the body `h\ni` (no quote) fails at the opening line 5
after having seen a newline; the body `h\ni"x` succeeds with the line
advanced to 6 and scanning resumed after the quote. -/
theorem c9_string_scanning_witness :
    Scanner.string ⟨[104, 10, 105], 5⟩ =
      (.error "unterminated string", ⟨[], 5⟩) ∧
    Scanner.string ⟨[104, 10, 105, 34, 120], 5⟩ =
      (.ok TokenType.String, ⟨[120], 6⟩) := by
  constructor
  · exact (c9_string_scanning [104, 10, 105] 5).1 (by decide)
  · have h := (c9_string_scanning [104, 10, 105, 34, 120] 5).2
      [104, 10, 105] [120] (by decide) (by decide)
    simpa using h

/-! ## C5: variable-length encoding round trip -/

theorem push_op_code (c : Chunk) (op a : Nat) :
    (c.push_op op a).code = c.code ++ [mkBytecode op a] := rfl

theorem bitLenAux_le_iff (fuel n k : Nat) (h : n ≤ fuel) :
    bitLenAux fuel n ≤ k ↔ n < 2 ^ k := by
  induction fuel generalizing n k with
  | zero =>
    have hn : n = 0 := by omega
    subst hn
    simp [bitLenAux, Nat.two_pow_pos]
  | succ fuel ih =>
    by_cases hn : n = 0
    · subst hn
      simp [bitLenAux, Nat.two_pow_pos]
    · rw [bitLenAux, if_neg hn]
      cases k with
      | zero =>
        simp only [pow_zero]
        constructor <;> intro h2 <;> omega
      | succ k =>
        rw [Nat.succ_le_succ_iff, ih (n / 2) k (by omega)]
        have hp : 2 ^ (k + 1) = 2 * 2 ^ k := by ring
        constructor <;> intro h2 <;> omega

theorem bitLen_le_iff (n k : Nat) : bitLen n ≤ k ↔ n < 2 ^ k :=
  bitLenAux_le_iff n n k le_rfl

theorem or_low (x b : Nat) (hb : b < 256) : x <<< 8 ||| b = x * 256 + b := by
  rw [Nat.shiftLeft_eq]
  have h := Nat.mul_add_lt_is_or (show b < 2 ^ 8 by omega) x
  calc x * 2 ^ 8 ||| b = 2 ^ 8 * x ||| b := by rw [Nat.mul_comm]
    _ = 2 ^ 8 * x + b := h.symm
    _ = x * 256 + b := by ring

theorem getInstCore_single (op a x len : Nat) (ha : a < 256) :
    getInstCore [op * 256 + a] x len = ⟨op, x ||| a, len⟩ := by
  have h1 : (op * 256 + a) / 256 = op := by omega
  have h2 : (op * 256 + a) % 256 = a := by omega
  by_cases hop : op = Op.Extend
  · subst hop
    simp [getInstCore, h1, h2]
  · simp [getInstCore, h1, h2, hop]

theorem getInstCore_ext (b : Nat) (rest : List Nat) (x len : Nat)
    (hb : b < 256) (hr : rest ≠ []) :
    getInstCore ((Op.Extend * 256 + b) :: rest) x len =
      getInstCore rest ((x ||| b) <<< 8) (len + 1) := by
  have h1 : (Op.Extend * 256 + b) / 256 = Op.Extend := by
    simp only [Op.Extend]; omega
  have h2 : (Op.Extend * 256 + b) % 256 = b := by
    simp only [Op.Extend]; omega
  cases rest with
  | nil => exact absurd rfl hr
  | cons y ys => simp [getInstCore, h1, h2]

theorem extendBytes_small (arg : Nat) (h : arg ≤ 0xff) :
    extendBytes arg = [] := by
  unfold extendBytes
  rw [if_neg (by omega)]

theorem extendBytes_one (arg : Nat) (h1 : 0xff < arg) (h2 : arg ≤ 0x7fff) :
    extendBytes arg = [arg / 256] := by
  have hext : arg >>> 8 = arg / 256 := by
    rw [Nat.shiftRight_eq_div_pow]
  have hbl : bitLen (arg >>> 8) ≤ 7 := by
    rw [bitLen_le_iff, hext]
    have hp : (2 : Nat) ^ 7 = 128 := by norm_num
    omega
  have hs : 3 - bitLen (arg >>> 8) / 8 = 3 := by omega
  unfold extendBytes
  rw [if_pos h1]
  show ([(arg >>> 8 >>> 24) % 256, (arg >>> 8 >>> 16) % 256,
        (arg >>> 8 >>> 8) % 256, (arg >>> 8) % 256].drop
      (3 - bitLen (arg >>> 8) / 8)) = _
  rw [hs]
  show [(arg >>> 8) % 256] = [arg / 256]
  rw [hext, Nat.mod_eq_of_lt (show arg / 256 < 256 by omega)]

theorem extendBytes_two (arg : Nat) (h1 : 0x7fff < arg) (h2 : arg ≤ 0x7fffff) :
    extendBytes arg = [arg / 65536, arg / 256 % 256] := by
  have hext : arg >>> 8 = arg / 256 := by
    rw [Nat.shiftRight_eq_div_pow]
  have he1 : (arg / 256) >>> 8 = arg / 65536 := by
    rw [Nat.shiftRight_eq_div_pow, Nat.div_div_eq_div_mul]
  have hbl1 : 7 < bitLen (arg >>> 8) := by
    rw [hext]
    have hq := bitLen_le_iff (arg / 256) 7
    have hp : (2 : Nat) ^ 7 = 128 := by norm_num
    omega
  have hbl2 : bitLen (arg >>> 8) ≤ 15 := by
    rw [bitLen_le_iff, hext]
    have hp : (2 : Nat) ^ 15 = 32768 := by norm_num
    omega
  have hs : 3 - bitLen (arg >>> 8) / 8 = 2 := by omega
  unfold extendBytes
  rw [if_pos (by omega)]
  show ([(arg >>> 8 >>> 24) % 256, (arg >>> 8 >>> 16) % 256,
        (arg >>> 8 >>> 8) % 256, (arg >>> 8) % 256].drop
      (3 - bitLen (arg >>> 8) / 8)) = _
  rw [hs]
  show [(arg >>> 8 >>> 8) % 256, (arg >>> 8) % 256] = _
  rw [hext, he1, Nat.mod_eq_of_lt (show arg / 65536 < 256 by omega)]

theorem extendBytes_three (arg : Nat) (h1 : 0x7fffff < arg) (h2 : arg ≤ 0xffffff) :
    extendBytes arg = [0, arg / 65536, arg / 256 % 256] := by
  have hext : arg >>> 8 = arg / 256 := by
    rw [Nat.shiftRight_eq_div_pow]
  have he1 : (arg / 256) >>> 8 = arg / 65536 := by
    rw [Nat.shiftRight_eq_div_pow, Nat.div_div_eq_div_mul]
  have he2 : (arg / 256) >>> 16 = 0 := by
    rw [Nat.shiftRight_eq_div_pow]
    have hp : (2 : Nat) ^ 16 = 65536 := by norm_num
    rw [hp]
    omega
  have hbl1 : 15 < bitLen (arg >>> 8) := by
    rw [hext]
    have hq := bitLen_le_iff (arg / 256) 15
    have hp : (2 : Nat) ^ 15 = 32768 := by norm_num
    omega
  have hbl2 : bitLen (arg >>> 8) ≤ 16 := by
    rw [bitLen_le_iff, hext]
    have hp : (2 : Nat) ^ 16 = 65536 := by norm_num
    omega
  have hs : 3 - bitLen (arg >>> 8) / 8 = 1 := by omega
  unfold extendBytes
  rw [if_pos (by omega)]
  show ([(arg >>> 8 >>> 24) % 256, (arg >>> 8 >>> 16) % 256,
        (arg >>> 8 >>> 8) % 256, (arg >>> 8) % 256].drop
      (3 - bitLen (arg >>> 8) / 8)) = _
  rw [hs]
  show [(arg >>> 8 >>> 16) % 256, (arg >>> 8 >>> 8) % 256, (arg >>> 8) % 256] = _
  rw [hext, he1, he2, Nat.mod_eq_of_lt (show arg / 65536 < 256 by omega)]

theorem foldl_push_op_code (bs : List Nat) (c : Chunk) :
    (bs.foldl (fun c b => ChunkG.push_op c Op.Extend b) c).code =
      c.code ++ bs.map (fun b => mkBytecode Op.Extend b) := by
  induction bs generalizing c with
  | nil => simp
  | cons b rest ih =>
    simp [List.foldl_cons, ih, push_op_code]

theorem write_op_arg_code (c : Chunk) (op arg : Nat) :
    (c.write_op_arg op arg).code =
      c.code ++ (extendBytes arg).map (fun b => mkBytecode Op.Extend b)
        ++ [mkBytecode op (arg % 256)] := by
  unfold ChunkG.write_op_arg
  rw [push_op_code, foldl_push_op_code]

/-- C5 counterexample: for `arg = 0x8000` exactly one byte of
`arg >> 8` is non-zero, so the claimed formula predicts one `Extend`
unit (two code units in total); the writer emits two `Extend` units
(the first with payload 0), three units in total. -/
theorem c5_counterexample_extra_extend :
    (ChunkG.write_op_arg (default : Chunk) Op.Constant 0x8000).code =
      [mkBytecode Op.Extend 0, mkBytecode Op.Extend 0x80,
       mkBytecode Op.Constant 0] ∧
    (ChunkG.write_op_arg (default : Chunk) Op.Constant 0x8000).code.length ≠ 2 := by
  constructor
  · rfl
  · decide

/-- C5 amended.  For every opcode `op ≥ Constant` (a `u8`, so below
256) and operand `arg ≤ 0xFFFFFF`, decoding the units emitted by
`write_op_arg` at their offset yields exactly `(op, arg)`; the writer
emits exactly one unit when `arg ≤ 0xFF` and otherwise exactly
`2 + bitLen (arg >> 8) / 8` units — one more than the non-zero bytes
of `arg` above its low byte require whenever the bit length of
`arg >> 8` is a positive multiple of 8 (as at `arg = 0x8000`). -/
theorem c5_roundtrip_and_unit_count (c : Chunk) (op arg : Nat)
    (hop : Op.Constant ≤ op) (hop2 : op < 256) (harg : arg ≤ 0xffffff) :
    ((c.write_op_arg op arg).get_instruction c.code.length).opcode = op ∧
    ((c.write_op_arg op arg).get_instruction c.code.length).operand = arg ∧
    (arg ≤ 0xff →
      (c.write_op_arg op arg).code.length = c.code.length + 1) ∧
    (0xff < arg →
      (c.write_op_arg op arg).code.length =
        c.code.length + 2 + bitLen (arg >>> 8) / 8) := by
  have hlo : arg % 256 < 256 := Nat.mod_lt _ (by omega)
  have hdm : 256 * (arg / 256) + arg % 256 = arg := Nat.div_add_mod arg 256
  by_cases hsm : arg ≤ 0xff
  · have hmod : arg % 256 = arg := Nat.mod_eq_of_lt (by omega)
    have hcode := write_op_arg_code c op arg
    rw [extendBytes_small arg hsm] at hcode
    simp only [List.map_nil, List.nil_append, List.append_nil] at hcode
    have hinst : (c.write_op_arg op arg).get_instruction c.code.length =
        ⟨op, 0 ||| arg, 1⟩ := by
      unfold ChunkG.get_instruction
      rw [hcode, List.drop_left']
      · rw [hmod]
        show getInstCore [op * 256 + arg] 0 1 = _
        exact getInstCore_single op arg 0 1 (by omega)
      · rfl
    refine ⟨by rw [hinst], by rw [hinst]; simp, fun _ => ?_, fun hc => by omega⟩
    rw [hcode]
    simp
  · have hgt : 0xff < arg := by omega
    by_cases hA : arg ≤ 0x7fff
    · have hbl : bitLen (arg >>> 8) ≤ 7 := by
        rw [bitLen_le_iff, Nat.shiftRight_eq_div_pow]
        have hp : (2 : Nat) ^ 7 = 128 := by norm_num
        have hq : (2 : Nat) ^ 8 = 256 := by norm_num
        omega
      have hcode := write_op_arg_code c op arg
      rw [extendBytes_one arg hgt hA] at hcode
      simp only [List.map_cons, List.map_nil, mkBytecode] at hcode
      have hinst : (c.write_op_arg op arg).get_instruction c.code.length =
        ⟨op, ((0 ||| (arg / 256)) <<< 8) ||| (arg % 256), 2⟩ := by
        unfold ChunkG.get_instruction
        rw [hcode, List.append_assoc, List.drop_left]
        show getInstCore
          [Op.Extend * 256 + arg / 256, op * 256 + arg % 256] 0 1 = _
        rw [getInstCore_ext (arg / 256) _ 0 1 (by omega) (by simp)]
        exact getInstCore_single op (arg % 256) _ 2 (by omega)
      refine ⟨by rw [hinst], ?_, fun hc => by omega, fun _ => ?_⟩
      · rw [hinst]
        show ((0 ||| (arg / 256)) <<< 8) ||| (arg % 256) = arg
        rw [Nat.zero_or, or_low _ _ hlo]
        omega
      · rw [hcode]
        have h8 : bitLen (arg >>> 8) / 8 = 0 := by omega
        rw [h8]
        simp
    · by_cases hB : arg ≤ 0x7fffff
      · have hbl1 : 7 < bitLen (arg >>> 8) := by
          rw [Nat.shiftRight_eq_div_pow]
          have hq := bitLen_le_iff (arg / 2 ^ 8) 7
          have hp : (2 : Nat) ^ 7 = 128 := by norm_num
          have hp8 : (2 : Nat) ^ 8 = 256 := by norm_num
          omega
        have hbl2 : bitLen (arg >>> 8) ≤ 15 := by
          rw [bitLen_le_iff, Nat.shiftRight_eq_div_pow]
          have hp : (2 : Nat) ^ 15 = 32768 := by norm_num
          have hp8 : (2 : Nat) ^ 8 = 256 := by norm_num
          omega
        have hb0 : arg / 256 % 256 < 256 := Nat.mod_lt _ (by omega)
        have hcode := write_op_arg_code c op arg
        rw [extendBytes_two arg (by omega) hB] at hcode
        simp only [List.map_cons, List.map_nil, mkBytecode] at hcode
        have hinst : (c.write_op_arg op arg).get_instruction c.code.length =
          ⟨op, ((((0 ||| (arg / 65536)) <<< 8) ||| (arg / 256 % 256)) <<< 8)
            ||| (arg % 256), 3⟩ := by
          unfold ChunkG.get_instruction
          rw [hcode, List.append_assoc, List.drop_left]
          show getInstCore
            [Op.Extend * 256 + arg / 65536,
             Op.Extend * 256 + arg / 256 % 256,
             op * 256 + arg % 256] 0 1 = _
          rw [getInstCore_ext (arg / 65536) _ 0 1 (by omega) (by simp),
            getInstCore_ext (arg / 256 % 256) _ _ 2 hb0 (by simp)]
          exact getInstCore_single op (arg % 256) _ 3 (by omega)
        refine ⟨by rw [hinst], ?_, fun hc => by omega, fun _ => ?_⟩
        · rw [hinst]
          show ((((0 ||| (arg / 65536)) <<< 8) ||| (arg / 256 % 256)) <<< 8)
              ||| (arg % 256) = arg
          rw [Nat.zero_or, or_low _ _ hb0, or_low _ _ hlo]
          have hdm2 : 256 * (arg / 65536) + arg / 256 % 256 = arg / 256 := by
            omega
          omega
        · rw [hcode]
          have h8 : bitLen (arg >>> 8) / 8 = 1 := by omega
          rw [h8]
          simp
      · have hbl1 : 15 < bitLen (arg >>> 8) := by
          rw [Nat.shiftRight_eq_div_pow]
          have hq := bitLen_le_iff (arg / 2 ^ 8) 15
          have hp : (2 : Nat) ^ 15 = 32768 := by norm_num
          have hp8 : (2 : Nat) ^ 8 = 256 := by norm_num
          omega
        have hbl2 : bitLen (arg >>> 8) ≤ 16 := by
          rw [bitLen_le_iff, Nat.shiftRight_eq_div_pow]
          have hp : (2 : Nat) ^ 16 = 65536 := by norm_num
          have hp8 : (2 : Nat) ^ 8 = 256 := by norm_num
          omega
        have hb0 : arg / 256 % 256 < 256 := Nat.mod_lt _ (by omega)
        have hcode := write_op_arg_code c op arg
        rw [extendBytes_three arg (by omega) harg] at hcode
        simp only [List.map_cons, List.map_nil, mkBytecode] at hcode
        have hinst : (c.write_op_arg op arg).get_instruction c.code.length =
          ⟨op, ((((((0 ||| 0) <<< 8) ||| (arg / 65536)) <<< 8)
              ||| (arg / 256 % 256)) <<< 8) ||| (arg % 256), 4⟩ := by
          unfold ChunkG.get_instruction
          rw [hcode, List.append_assoc, List.drop_left]
          show getInstCore
            [Op.Extend * 256 + 0,
             Op.Extend * 256 + arg / 65536,
             Op.Extend * 256 + arg / 256 % 256,
             op * 256 + arg % 256] 0 1 = _
          rw [getInstCore_ext 0 _ 0 1 (by omega) (by simp),
            getInstCore_ext (arg / 65536) _ _ 2 (by omega) (by simp),
            getInstCore_ext (arg / 256 % 256) _ _ 3 hb0 (by simp)]
          exact getInstCore_single op (arg % 256) _ 4 (by omega)
        refine ⟨by rw [hinst], ?_, fun hc => by omega, fun _ => ?_⟩
        · rw [hinst]
          show ((((((0 ||| 0) <<< 8) ||| (arg / 65536)) <<< 8)
              ||| (arg / 256 % 256)) <<< 8) ||| (arg % 256) = arg
          rw [Nat.zero_or, Nat.zero_shiftLeft, Nat.zero_or,
            or_low _ _ hb0, or_low _ _ hlo]
          have hdm2 : 256 * (arg / 65536) + arg / 256 % 256 = arg / 256 := by
            omega
          omega
        · rw [hcode]
          have h8 : bitLen (arg >>> 8) / 8 = 2 := by omega
          rw [h8]
          simp

/-- C5 witness: the amended statement instantiated at `op = Constant`,
`arg = 0x8000` (three units, round-tripping to `(Constant, 0x8000)`). -/
theorem c5_roundtrip_witness :
    ((ChunkG.write_op_arg (default : Chunk) Op.Constant 0x8000).get_instruction 0).opcode = Op.Constant ∧
    ((ChunkG.write_op_arg (default : Chunk) Op.Constant 0x8000).get_instruction 0).operand = 0x8000 ∧
    (ChunkG.write_op_arg (default : Chunk) Op.Constant 0x8000).code.length =
      0 + 2 + bitLen (0x8000 >>> 8) / 8 := by
  have h := c5_roundtrip_and_unit_count (default : Chunk) Op.Constant 0x8000
    (by decide) (by decide) (by decide)
  exact ⟨h.1, h.2.1, h.2.2.2 (by decide)⟩

/-! ## C1: `Op::Call` on a builtin truncates to the wrong length -/

/-- C1 (code bug).  The builtin arm of `Op::Call` truncates the stack
to `stack_len - argc + 1` (the source says `self.stack.len() -
arg_count + 1`), not to the `stack_len - argc - 1` the claim states:
with stack `[Nil, clock]`, `argc = 0` and a host returning `Number 7`,
the dispatch continues with stack `[Nil, clock, 7]` — the callee is
left beneath the result — while the claim requires `[Nil, 7]`, so
one slot too many remains. -/
theorem c1_call_builtin_truncation_bug :
    execInst (clockNative (.num 7)) default 0 ⟨Op.Call, 0, 1⟩ 1
        { vm0 with stack := [Value.nil, clockValue] } =
      .next 1 { vm0 with
        stack := [Value.nil, clockValue, Value.number (.num 7)] } ∧
    [Value.nil, clockValue, Value.number (.num 7)].length ≠
      [Value.nil, Value.number (.num 7)].length := by
  exact ⟨rfl, by decide⟩

/-! ## C3: no call-expression parsing in `parse_precedence` -/

/-- C3 counterexample.  A left parenthesis after a complete operand is
not an infix rule: `for_op_type` gives it precedence `None` (not
`Call`), and parsing `f(1);` as an expression stops after the operand
with the `(` still the current (unconsumed) token, the emitted code
being a single `GetGlobal` — no `Call(argc)` instruction anywhere. -/
theorem c3_counterexample_no_call_compiled :
    Prec.for_op_type TokenType.LeftParen = Prec.None ∧
    (exprParse 100 Prec.Assignment callToks).chunks =
      [{ code := [mkBytecode Op.GetGlobal 0], constants := [],
         lines := [1], lineCurrent := 1 }] ∧
    (exprParse 100 Prec.Assignment callToks).current.ty =
      TokenType.LeftParen ∧
    ((exprParse 100 Prec.Assignment callToks).chunks.all
      (fun c => c.code.all (fun u => u / 256 != Op.Call))) = true := by
  exact ⟨rfl, rfl, rfl, rfl⟩

/-- C3 amended.  No token kind has infix precedence `Call`; in
particular `LeftParen` maps to `None`, so the infix loop of
`parse_precedence` never treats `(` as a call operator: parsing
`f(1)` leaves the `(` unconsumed and emits no `Call` instruction
(call expressions are not compiled by this revision). -/
theorem c3_amended_no_infix_left_paren :
    (∀ ty : TokenType, Prec.for_op_type ty ≠ Prec.Call) ∧
    Prec.for_op_type TokenType.LeftParen = Prec.None ∧
    (exprParse 100 Prec.Assignment callToks).current.ty =
      TokenType.LeftParen ∧
    ((exprParse 100 Prec.Assignment callToks).chunks.all
      (fun c => c.code.all (fun u => u / 256 != Op.Call))) = true := by
  exact ⟨by decide, rfl, rfl, rfl⟩

/-! ## C4: `switch` is implemented and compiles without error -/

/-- C4 counterexample.  The program
`switch (1) { case 1: print 2; }` (which uses a `switch` statement
with a `case` clause) compiles with no compile error, producing a
bytecode chunk of eleven code units — contradicting the claim that
every program using `switch` fails to compile. -/
theorem c4_counterexample_switch_compiles :
    (parse 200 switchToks).2.had_error = false ∧
    (parse 200 switchToks).2.errors = [] ∧
    (match (parse 200 switchToks).1 with
     | some c => c.code.length
     | none => 0) = 11 := by
  exact ⟨rfl, rfl, rfl⟩

/-- C4 amended.  The keywords `class`, `fun`, `return`, `super` and
`this` are reserved but unimplemented — `fun foo() {}` is rejected at
`fun` with "expect expression" — while `switch`/`case`/`default` ARE
implemented: the switch program compiles without error into bytecode
(the synthesized-local test, the case comparison and the case body,
ending with the top-level `Return`). -/
theorem c4_amended_switch_implemented :
    (parse 200 funToks).2.had_error = true ∧
    (parse 200 funToks).2.errors =
      ["[line 1] Error at \x27fun\x27: expect expression"] ∧
    (parse 200 switchToks).2.had_error = false ∧
    (parse 200 switchToks).2.errors = [] ∧
    (match (parse 200 switchToks).1 with
     | some c => c.code
     | none => []) =
      [mkBytecode Op.Constant 0, mkBytecode Op.GetLocal 0,
       mkBytecode Op.Constant 1, mkBytecode Op.Equal 0,
       mkBytecode Op.Extend 15, mkBytecode Op.JumpIfFalse 255,
       mkBytecode Op.Pop 0, mkBytecode Op.Constant 2,
       mkBytecode Op.Print 0, mkBytecode Op.Pop 0,
       mkBytecode Op.Return 0] := by
  exact ⟨rfl, rfl, rfl, rfl, rfl⟩

/-! ## C10: desugared comparisons and NaN -/

/-- C10.  The compiler emits `x <= y` as `Greater` then `Not`,
`x >= y` as `Less` then `Not`, and `x != y` as `Equal` then `Not`
(first three conjuncts, on the token streams of `1 <= 2`, `1 >= 2`,
`1 != 2`).  Consequently, for number operands with at least one NaN,
executing the `<=` and `>=` sequences yields `Bool(true)` while the
bare `Less` and `Greater` of `<` and `>` yield `Bool(false)`; and on
non-number operands the comparison raises "operands must be numbers"
(surfaced with the `[line N]` prefix). -/
theorem c10_comparison_desugaring (x y : F64)
    (h : x.isNan = true ∨ y.isNan = true) :
    ((exprParse 100 Prec.Assignment (binToks .LessEqual "<=")).chunk).code =
      [mkBytecode Op.Constant 0, mkBytecode Op.Constant 1,
       mkBytecode Op.Greater 0, mkBytecode Op.Not 0] ∧
    ((exprParse 100 Prec.Assignment (binToks .GreaterEqual ">=")).chunk).code =
      [mkBytecode Op.Constant 0, mkBytecode Op.Constant 1,
       mkBytecode Op.Less 0, mkBytecode Op.Not 0] ∧
    ((exprParse 100 Prec.Assignment (binToks .BangEqual "!=")).chunk).code =
      [mkBytecode Op.Constant 0, mkBytecode Op.Constant 1,
       mkBytecode Op.Equal 0, mkBytecode Op.Not 0] ∧
    (run_frame_loop (clockNative (.num 0)) (cmpFunc [Op.Greater, Op.Not]) 0 0 9 0
        { vm0 with stack := [Value.number x, Value.number y] } =
      (.ok none, { vm0 with stack := [Value.boolean true] })) ∧
    (run_frame_loop (clockNative (.num 0)) (cmpFunc [Op.Less, Op.Not]) 0 0 9 0
        { vm0 with stack := [Value.number x, Value.number y] } =
      (.ok none, { vm0 with stack := [Value.boolean true] })) ∧
    (run_frame_loop (clockNative (.num 0)) (cmpFunc [Op.Less]) 0 0 9 0
        { vm0 with stack := [Value.number x, Value.number y] } =
      (.ok none, { vm0 with stack := [Value.boolean false] })) ∧
    (run_frame_loop (clockNative (.num 0)) (cmpFunc [Op.Greater]) 0 0 9 0
        { vm0 with stack := [Value.number x, Value.number y] } =
      (.ok none, { vm0 with stack := [Value.boolean false] })) ∧
    (run_frame_loop (clockNative (.num 0)) (cmpFunc [Op.Greater, Op.Not]) 0 0 9 0
        { vm0 with stack := [Value.nil, Value.number (.num 1)] } =
      (.error ⟨"[line 1] operands must be numbers"⟩,
       { vm0 with stack := [] })) := by
  refine ⟨rfl, rfl, rfl, ?_, ?_, ?_, ?_, rfl⟩ <;>
    (rcases h with hx | hy
     · cases x with
       | num q => simp [F64.isNan] at hx
       | nan => cases y <;> rfl
     · cases y with
       | num q => simp [F64.isNan] at hy
       | nan => cases x <;> rfl)

/-- C10 witness: the statement at `x = NaN`, `y = 0`. -/
theorem c10_comparison_desugaring_witness :
    (run_frame_loop (clockNative (.num 0)) (cmpFunc [Op.Greater, Op.Not]) 0 0 9 0
        { vm0 with stack := [Value.number .nan, Value.number (.num 0)] } =
      (.ok none, { vm0 with stack := [Value.boolean true] })) ∧
    (run_frame_loop (clockNative (.num 0)) (cmpFunc [Op.Less]) 0 0 9 0
        { vm0 with stack := [Value.number .nan, Value.number (.num 0)] } =
      (.ok none, { vm0 with stack := [Value.boolean false] })) := by
  have h := c10_comparison_desugaring F64.nan (.num 0) (Or.inl rfl)
  exact ⟨h.2.2.2.1, h.2.2.2.2.2.1⟩

/-! ## C2: state after a runtime error -/

theorem ofPush_state_frames (ip : Nat) (s : Vm) (v : Value) :
    (StepRes.ofPush ip s (s.push v)).state.frames = s.frames := by
  unfold StepRes.ofPush Vm.push
  split <;> rename_i heq
  · split at heq
    · cases heq; rfl
    · cases heq
  · rfl

theorem arithmetic_args_frames (s : Vm) :
    (s.arithmetic_args).2.frames = s.frames := by
  simp only [Vm.arithmetic_args, Vm.pop]
  split <;> rfl

theorem arith_split (s s₂ : Vm) (r : Except RuntimeError (F64 × F64))
    (heq : s.arithmetic_args = (r, s₂)) : s₂.frames = s.frames := by
  have h := arithmetic_args_frames s
  rw [heq] at h
  exact h

theorem execInst_frames (native : NativeImpl) (hN : framesPreserving native)
    (chunk : Chunk) (base : Nat) (inst : Instruction) (ip : Nat) (s : Vm) :
    (execInst native chunk base inst ip s).state.frames = s.frames := by
  unfold execInst
  by_cases h : inst.opcode = Op.Nil
  · rw [if_pos h]
    exact ofPush_state_frames _ _ _
  rw [if_neg h]
  by_cases h : inst.opcode = Op.True
  · rw [if_pos h]
    exact ofPush_state_frames _ _ _
  rw [if_neg h]
  by_cases h : inst.opcode = Op.False
  · rw [if_pos h]
    exact ofPush_state_frames _ _ _
  rw [if_neg h]
  by_cases h : inst.opcode = Op.Pop
  · rw [if_pos h]
    rfl
  rw [if_neg h]
  by_cases h : inst.opcode = Op.Print
  · rw [if_pos h]
    rfl
  rw [if_neg h]
  by_cases h : inst.opcode = Op.Return
  · rw [if_pos h]
    rfl
  rw [if_neg h]
  by_cases h : inst.opcode = Op.Not
  · rw [if_pos h]
    rfl
  rw [if_neg h]
  by_cases h : inst.opcode = Op.Negate
  · rw [if_pos h]
    split <;> rfl
  rw [if_neg h]
  by_cases h : inst.opcode = Op.Equal
  · rw [if_pos h]
    rfl
  rw [if_neg h]
  by_cases h : inst.opcode = Op.Greater
  · rw [if_pos h]
    split <;> (rename_i heq; simp only [StepRes.state, Vm.poke]; exact arith_split _ _ _ heq)
  rw [if_neg h]
  by_cases h : inst.opcode = Op.Less
  · rw [if_pos h]
    split <;> (rename_i heq; simp only [StepRes.state, Vm.poke]; exact arith_split _ _ _ heq)
  rw [if_neg h]
  by_cases h : inst.opcode = Op.Add
  · rw [if_pos h]
    dsimp only
    repeat' split
    all_goals rfl
  rw [if_neg h]
  by_cases h : inst.opcode = Op.Subtract
  · rw [if_pos h]
    split <;> (rename_i heq; simp only [StepRes.state, Vm.poke]; exact arith_split _ _ _ heq)
  rw [if_neg h]
  by_cases h : inst.opcode = Op.Multiply
  · rw [if_pos h]
    split <;> (rename_i heq; simp only [StepRes.state, Vm.poke]; exact arith_split _ _ _ heq)
  rw [if_neg h]
  by_cases h : inst.opcode = Op.Divide
  · rw [if_pos h]
    split <;> (rename_i heq; simp only [StepRes.state, Vm.poke]; exact arith_split _ _ _ heq)
  rw [if_neg h]
  by_cases h : inst.opcode = Op.Constant
  · rw [if_pos h]
    exact ofPush_state_frames _ _ _
  rw [if_neg h]
  by_cases h : inst.opcode = Op.Call
  · rw [if_pos h]
    dsimp only
    cases hpk : s.peek inst.operand with
    | function tag fname farity fchunk =>
      dsimp only
      by_cases hq : farity ≠ inst.operand
      · rw [if_pos hq]; rfl
      · rw [if_neg hq]; rfl
    | builtin bname farity f =>
      dsimp only
      by_cases hq : farity ≠ inst.operand
      · rw [if_pos hq]; rfl
      · rw [if_neg hq]
        split <;> (rename_i heq; have h2 := hN f inst.operand s; rw [heq] at h2; first | exact (ofPush_state_frames _ _ _).trans h2 | exact h2)
    | nil => rfl
    | boolean b => rfl
    | number xq => rfl
    | str st => rfl
  rw [if_neg h]
  by_cases h : inst.opcode = Op.PopN
  · rw [if_pos h]
    rfl
  rw [if_neg h]
  by_cases h : inst.opcode = Op.DefineGlobal
  · rw [if_pos h]
    rfl
  rw [if_neg h]
  by_cases h : inst.opcode = Op.GetGlobal
  · rw [if_pos h]
    split <;> first | rfl | exact ofPush_state_frames _ _ _
  rw [if_neg h]
  by_cases h : inst.opcode = Op.SetGlobal
  · rw [if_pos h]
    split <;> rfl
  rw [if_neg h]
  by_cases h : inst.opcode = Op.GetLocal
  · rw [if_pos h]
    exact ofPush_state_frames _ _ _
  rw [if_neg h]
  by_cases h : inst.opcode = Op.SetLocal
  · rw [if_pos h]
    rfl
  rw [if_neg h]
  by_cases h : inst.opcode = Op.JumpIfFalse
  · rw [if_pos h]
    split <;> rfl
  rw [if_neg h]
  by_cases h : inst.opcode = Op.Jump
  · rw [if_pos h]
    rfl
  rw [if_neg h]
  by_cases h : inst.opcode = Op.Loop
  · rw [if_pos h]
    rfl
  rw [if_neg h]
  by_cases h : inst.opcode = Op.Nop
  · rw [if_pos h]
    rfl
  rw [if_neg h]
  rfl

theorem run_frame_loop_error (native : NativeImpl) (hN : framesPreserving native)
    (func : LoxFunction) (base current : Nat) :
    ∀ fuel off s e s₂,
      run_frame_loop native func base current fuel off s = (.error e, s₂) →
      s₂.stack = [] ∧ s₂.frames = s.frames ∧
      ∃ (off₂ : Nat) (e₀ : RuntimeError), off₂ < func.chunk.code.length ∧
        e = e₀.with_line (func.chunk.get_line off₂) := by
  intro fuel
  induction fuel with
  | zero =>
    intro off s e s₂ h
    simp [run_frame_loop] at h
  | succ fuel ih =>
    intro off s e s₂ h
    rw [run_frame_loop] at h
    by_cases hoff : off < func.chunk.code.length
    · rw [if_pos hoff] at h
      dsimp only at h
      have hf := execInst_frames native hN func.chunk base
        (func.chunk.get_instruction off)
        (off + (func.chunk.get_instruction off).len) s
      cases hE : execInst native func.chunk base
          (func.chunk.get_instruction off)
          (off + (func.chunk.get_instruction off).len) s with
      | next ip₂ s₃ =>
        rw [hE] at h hf
        obtain ⟨h1, h2, h3⟩ := ih _ _ _ _ h
        exact ⟨h1, h2.trans hf, h3⟩
      | ret s₃ =>
        rw [hE] at h
        simp at h
      | call fr s₃ =>
        rw [hE] at h
        simp at h
      | err e₃ s₃ =>
        rw [hE] at h hf
        have hback : off + (func.chunk.get_instruction off).len -
            (func.chunk.get_instruction off).len = off := by omega
        rw [hback] at h
        obtain ⟨he, hs⟩ := Prod.mk.injEq .. ▸ h
        refine ⟨?_, ?_, off, e₃, hoff, ?_⟩
        · rw [← hs]
        · rw [← hs]
          exact hf
        · exact (Except.error.inj he).symm
    · rw [if_neg hoff] at h
      simp at h

theorem run_frame_loop_frames_length (native : NativeImpl)
    (hN : framesPreserving native) (func : LoxFunction) (base current : Nat) :
    ∀ fuel off s r s₂,
      run_frame_loop native func base current fuel off s = (r, s₂) →
      s₂.frames.length = s.frames.length := by
  intro fuel
  induction fuel with
  | zero =>
    intro off s r s₂ h
    simp only [run_frame_loop] at h
    obtain ⟨-, hs⟩ := Prod.mk.injEq .. ▸ h
    rw [← hs]
  | succ fuel ih =>
    intro off s r s₂ h
    rw [run_frame_loop] at h
    by_cases hoff : off < func.chunk.code.length
    · rw [if_pos hoff] at h
      dsimp only at h
      have hf := execInst_frames native hN func.chunk base
        (func.chunk.get_instruction off)
        (off + (func.chunk.get_instruction off).len) s
      cases hE : execInst native func.chunk base
          (func.chunk.get_instruction off)
          (off + (func.chunk.get_instruction off).len) s with
      | next ip₂ s₃ =>
        rw [hE] at h hf
        have hf2 : s₃.frames = s.frames := hf
        exact (ih _ _ _ _ h).trans (congrArg List.length hf2)
      | ret s₃ =>
        rw [hE] at h hf
        have hf2 : s₃.frames = s.frames := hf
        obtain ⟨-, hs⟩ := Prod.mk.injEq .. ▸ h
        rw [← hs, hf2]
      | call fr s₃ =>
        rw [hE] at h hf
        have hf2 : s₃.frames = s.frames := hf
        obtain ⟨-, hs⟩ := Prod.mk.injEq .. ▸ h
        rw [← hs]
        show (match s₃.frames.get? current with
          | some fr₀ => s₃.frames.set current { fr₀ with
              offset := off + (func.chunk.get_instruction off).len }
          | none => s₃.frames).length = s.frames.length
        split
        · rw [List.length_set, hf2]
        · rw [hf2]
      | err e₃ s₃ =>
        rw [hE] at h hf
        have hf2 : s₃.frames = s.frames := hf
        obtain ⟨-, hs⟩ := Prod.mk.injEq .. ▸ h
        rw [← hs]
        exact congrArg List.length hf2
    · rw [if_neg hoff] at h
      obtain ⟨-, hs⟩ := Prod.mk.injEq .. ▸ h
      rw [← hs]

theorem push_ok_frames (s : Vm) (v : Value) (s₂ : Vm) (h : s.push v = .ok s₂) :
    s₂.frames = s.frames := by
  rw [Vm.push] at h
  split at h
  · rw [← Except.ok.inj h]
  · exact absurd h (by simp)

theorem runLoop_error (native : NativeImpl) (hN : framesPreserving native) (ifuel : Nat) :
    ∀ ofuel current s e s₂,
      s.frames.length = current + 1 →
      runLoop native ifuel ofuel current s = (.error e, s₂) →
      s₂.stack = [] ∧ s₂.frames ≠ [] ∧
      ∃ (fr : Frame) (off₂ : Nat) (e₀ : RuntimeError),
        s₂.frames.getLast? = some fr ∧ off₂ < fr.func.chunk.code.length ∧
        e = e₀.with_line (fr.func.chunk.get_line off₂) := by
  intro ofuel
  induction ofuel with
  | zero =>
    intro current s e s₂ hinv h
    simp [runLoop] at h
  | succ ofuel ih =>
    intro current s e s₂ hinv h
    rw [runLoop] at h
    cases hR : run_frame native ifuel current s with
    | mk r s₃ =>
    rw [hR] at h
    have hR2 : run_frame_loop native (s.frames.getD current default).func
        (s.frames.getD current default).base current ifuel
        (s.frames.getD current default).offset s = (r, s₃) := hR
    cases r with
    | error e₁ =>
      dsimp only at h
      obtain ⟨he, hs⟩ := Prod.mk.injEq .. ▸ h
      obtain ⟨hstk, hfr, off₂, e₀, hoff₂, heq⟩ :=
        run_frame_loop_error native hN _ _ current ifuel _ s e₁ s₃ hR2
      have he2 : e = e₁ := (Except.error.inj he).symm
      have hlt : current < s.frames.length := by omega
      have hgd : s.frames.getD current default = s.frames.get ⟨current, hlt⟩ := by
        rw [List.getD_eq_getElem?_getD, List.getElem?_eq_getElem hlt]
        rfl
      refine ⟨hs ▸ hstk, ?_, s.frames.getD current default, off₂, e₀, ?_, hoff₂,
        he2.trans heq⟩
      · rw [← hs, hfr]
        intro hnil
        rw [hnil] at hinv
        simp at hinv
      · rw [← hs, hfr, List.getLast?_eq_getElem?, hinv, Nat.add_sub_cancel,
          List.getElem?_eq_getElem hlt, hgd]
        rfl
    | ok o =>
      cases o with
      | none =>
        dsimp only [Vm.pop] at h
        have hfl := run_frame_loop_frames_length native hN _ _ current ifuel _ s _ s₃ hR2
        by_cases hc : current = 0
        · rw [if_pos hc] at h
          exact absurd h (by simp)
        · rw [if_neg hc] at h
          refine ih (current - 1) _ e s₂ ?_ h
          split
          · rename_i s₇ heq
            rw [push_ok_frames _ _ _ heq]
            show (s₃.frames.dropLast).length = current - 1 + 1
            rw [List.length_dropLast, hfl, hinv]
            omega
          · show (s₃.frames.dropLast).length = current - 1 + 1
            rw [List.length_dropLast, hfl, hinv]
            omega
      | some fr =>
        dsimp only at h
        have hfl := run_frame_loop_frames_length native hN _ _ current ifuel _ s _ s₃ hR2
        refine ih (current + 1) _ e s₂ ?_ h
        show (s₃.frames ++ [fr]).length = current + 1 + 1
        rw [List.length_append, hfl, hinv]
        rfl

/-- C2, counterexample.  Running the one-instruction script
`Op::Negate` (negating the reserved `Nil` slot) raises "operand must
be a number" at line 1: the returned message carries the `[line 1] `
prefix and the value stack is cleared, but the frame stack still
holds the script frame — the claim that the frame stack is empty
after a runtime error fails on this input. -/
theorem c2_counterexample_frames_not_popped :
    Vm.run (clockNative (F64.num 0)) 10 10 negScript vm0 =
      (.error ⟨"[line 1] operand must be a number"⟩, vmErrC2) ∧
    vmErrC2.frames.length = 1 ∧ vmErrC2.frames ≠ [] :=
  ⟨rfl, rfl, fun hc => List.cons_ne_nil _ _ hc⟩

/-- C2, amended.  For a host-function oracle that leaves the frame
stack unchanged, whenever `Vm::run` (entered with no frames pending)
returns a runtime error, the value stack has been cleared and the
error message is `[line N] `-prefixed via the line map of the raising
frame at an in-range offset; the frame stack is NOT popped: it still
ends with the raising frame. -/
theorem c2_error_line_prefix_and_frames (native : NativeImpl)
    (hN : framesPreserving native) (ofuel ifuel : Nat) (script : LoxFunction)
    (s₀ : Vm) (e : RuntimeError) (s₂ : Vm) (h0 : s₀.frames = [])
    (h : Vm.run native ofuel ifuel script s₀ = (.error e, s₂)) :
    s₂.stack = [] ∧ s₂.frames ≠ [] ∧
    ∃ (fr : Frame) (off₂ : Nat) (e₀ : RuntimeError),
      s₂.frames.getLast? = some fr ∧ off₂ < fr.func.chunk.code.length ∧
      e = e₀.with_line (fr.func.chunk.get_line off₂) := by
  rw [Vm.run] at h
  refine runLoop_error native hN ifuel ofuel 0 _ e s₂ ?_ h
  split
  · rename_i s₇ heq
    rw [push_ok_frames _ _ _ heq]
    show (s₀.frames ++ [({ func := script, base := 0, offset := 0 } : Frame)]).length = 0 + 1
    rw [h0]
    rfl
  · show (s₀.frames ++ [({ func := script, base := 0, offset := 0 } : Frame)]).length = 0 + 1
    rw [h0]
    rfl

/-- C2, witness: the amended statement at the `negScript` run. -/
theorem c2_error_line_prefix_and_frames_witness :
    vm0.frames = [] ∧
    (vmErrC2.stack = [] ∧ vmErrC2.frames ≠ [] ∧
     ∃ (fr : Frame) (off₂ : Nat) (e₀ : RuntimeError),
       vmErrC2.frames.getLast? = some fr ∧ off₂ < fr.func.chunk.code.length ∧
       (⟨"[line 1] operand must be a number"⟩ : RuntimeError) =
         e₀.with_line (fr.func.chunk.get_line off₂)) :=
  ⟨rfl, c2_error_line_prefix_and_frames (clockNative (F64.num 0))
    (fun _ _ _ => rfl) 10 10 negScript vm0
    ⟨"[line 1] operand must be a number"⟩ vmErrC2 rfl rfl⟩

end Redlox
